import Mathlib

/-!
Verification of core giftless (Git LFS server) logic against its
natural-language specification.

Python strings are modelled as Lean `String` where only equality matters,
and as `List Char` where the code manipulates their characters
(scope strings, XML bodies).  Python `dict`s are modelled as association
lists with first-match lookup; `dict` key-replacement keeps the key in
place, insertion appends at the end, which matches insertion-ordered
Python dicts.  Python `set`s of permissions are modelled as lists, with
membership as the semantics of interest.
-/

namespace Giftless

/-- Association-list lookup, first match wins (Python `d[k]` / `d.get(k)`). -/
def dlookup {α β : Type} [DecidableEq α] : List (α × β) → α → Option β
  | [], _ => none
  | (k', v) :: rest, k => if k' = k then some v else dlookup rest k

/-- Association-list update (Python `d[k] = v`): replace the first binding of
`k` in place, or append a new binding at the end. -/
def dset {α β : Type} [DecidableEq α] : List (α × β) → α → β → List (α × β)
  | [], k, v => [(k, v)]
  | (k', v') :: rest, k, v =>
    if k' = k then (k, v) :: rest else (k', v') :: dset rest k v

theorem dlookup_dset_self {α β : Type} [DecidableEq α]
    (d : List (α × β)) (k : α) (v : β) :
    dlookup (dset d k v) k = some v := by
  induction d with
  | nil => simp [dset, dlookup]
  | cons hd tl ih =>
    obtain ⟨k₀, v₀⟩ := hd
    by_cases h : k₀ = k <;> simp [dset, dlookup, h, ih]

theorem dlookup_dset_ne {α β : Type} [DecidableEq α]
    (d : List (α × β)) (k : α) (v : β) (k' : α) (h : ¬ k' = k) :
    dlookup (dset d k v) k' = dlookup d k' := by
  have h' : ¬ k = k' := fun hc => h hc.symm
  induction d with
  | nil => simp [dset, dlookup, h']
  | cons hd tl ih =>
    obtain ⟨k₀, v₀⟩ := hd
    by_cases h0 : k₀ = k
    · subst h0
      simp [dset, dlookup, h']
    · simp [dset, dlookup, h0, ih]

theorem dlookup_dset {α β : Type} [DecidableEq α]
    (d : List (α × β)) (k : α) (v : β) (k' : α) :
    dlookup (dset d k v) k' = if k' = k then some v else dlookup d k' := by
  by_cases h : k' = k
  · subst h
    simp [dlookup_dset_self]
  · simp [dlookup_dset_ne d k v k' h, h]

/-- System wide permissions (`giftless.auth.identity.Permission`). -/
inductive Permission where
  | READ
  | READ_META
  | WRITE
deriving DecidableEq

/-- `Permission.all()`: the set of all permissions. -/
def Permission.allPerms : List Permission := [.READ, .READ_META, .WRITE]

/-- Innermost level of the permission tree: oid ↦ permission set. -/
abbrev OidLevel := List (Option String × List Permission)

/-- Middle level of the permission tree: repo ↦ oid level. -/
abbrev RepoLevel := List (Option String × OidLevel)

/-- The permission tree `org ↦ repo ↦ oid ↦ set<Permission>` of
`DefaultIdentity._allowed`; `none` keys model Python `None` wildcards. -/
abbrev PermissionTree := List (Option String × RepoLevel)

/-- `DefaultIdentity.allow`: grant permissions at `tree[org][repo][oid]`.
The three `defaultdict` levels are created on access; with
`permissions=None` the entry is *assigned* the empty set, otherwise the
given permissions are unioned in (`set.update`). -/
def allow (t : PermissionTree) (organization repo : Option String)
    (permissions : Option (List Permission)) (oid : Option String) :
    PermissionTree :=
  let l2 := (dlookup t organization).getD []
  let l3 := (dlookup l2 repo).getD []
  let s := (dlookup l3 oid).getD []
  let s' := match permissions with
    | none => []
    | some p => s.union p
  dset t organization (dset l2 repo (dset l3 oid s'))

/-- `DefaultIdentity.is_authorized`.  Returns the boolean answer *and* the
permission tree after the call: the two `defaultdict` index expressions
`self._allowed[organization][None][None]` and
`self._allowed[None][None][oid]` create an empty innermost entry when the
final key is absent, so the call can mutate the tree. -/
def isAuthorized (t : PermissionTree) (organization repo : String)
    (permission : Permission) (oid : Option String) :
    Bool × PermissionTree :=
  match dlookup t (some organization) with
  | some l2 =>
    match dlookup l2 (some repo) with
    | some l3 =>
      match dlookup l3 oid with
      | some s => (decide (permission ∈ s), t)
      | none =>
        match dlookup l3 none with
        | some s => (decide (permission ∈ s), t)
        | none => (false, t)
    | none =>
      match dlookup l2 none with
      | some l3 =>
        match dlookup l3 none with
        | some s => (decide (permission ∈ s), t)
        | none =>
          (false, dset t (some organization) (dset l2 none (dset l3 none [])))
      | none => (false, t)
  | none =>
    match dlookup t none with
    | some l2 =>
      match dlookup l2 none with
      | some l3 =>
        match dlookup l3 oid with
        | some s => (decide (permission ∈ s), t)
        | none => (false, dset t none (dset l2 none (dset l3 oid [])))
      | none => (false, t)
    | none => (false, t)

/-- Resolution at the oid level: exact oid entry first, then the wildcard
(`None`) entry. -/
def resolveOid (l3 : OidLevel) (oid : Option String) :
    Option (List Permission) :=
  match dlookup l3 oid with
  | some s => some s
  | none => dlookup l3 none

/-- Resolution below a present organization entry. -/
def resolveRepo (l2 : RepoLevel) (repo : String) (oid : Option String) :
    Option (List Permission) :=
  match dlookup l2 (some repo) with
  | some l3 => resolveOid l3 oid
  | none =>
    match dlookup l2 none with
    | some l3 => dlookup l3 none
    | none => none

/-- Resolution below the global (`None`) organization entry: note the lookup
is keyed by the query's oid, with no fallback to the wildcard entry. -/
def resolveGlobal (l2 : RepoLevel) (oid : Option String) :
    Option (List Permission) :=
  match dlookup l2 none with
  | some l3 => dlookup l3 oid
  | none => none

/-- The permission set an authorization query resolves to (most specific
entry first), `none` when the path is missing.  Pure counterpart used to
characterize the boolean component of `isAuthorized`. -/
def lookupPerm (t : PermissionTree) (organization repo : String)
    (oid : Option String) : Option (List Permission) :=
  match dlookup t (some organization) with
  | some l2 => resolveRepo l2 repo oid
  | none =>
    match dlookup t none with
    | some l2 => resolveGlobal l2 oid
    | none => none

theorem lookupPerm_org_some {t : PermissionTree} {organization : String}
    {l2 : RepoLevel} (h : dlookup t (some organization) = some l2)
    (repo : String) (oid : Option String) :
    lookupPerm t organization repo oid = resolveRepo l2 repo oid := by
  unfold lookupPerm
  rw [h]

theorem lookupPerm_org_none {t : PermissionTree} {organization : String}
    {l2 : RepoLevel} (h1 : dlookup t (some organization) = none)
    (h2 : dlookup t none = some l2) (repo : String) (oid : Option String) :
    lookupPerm t organization repo oid = resolveGlobal l2 oid := by
  unfold lookupPerm
  rw [h1, h2]

theorem lookupPerm_none_none {t : PermissionTree} {organization : String}
    (h1 : dlookup t (some organization) = none)
    (h2 : dlookup t none = none) (repo : String) (oid : Option String) :
    lookupPerm t organization repo oid = none := by
  unfold lookupPerm
  rw [h1, h2]

theorem resolveRepo_some {l2 : RepoLevel} {repo : String} {l3 : OidLevel}
    (h : dlookup l2 (some repo) = some l3) (oid : Option String) :
    resolveRepo l2 repo oid = resolveOid l3 oid := by
  unfold resolveRepo
  rw [h]

theorem resolveRepo_none_some {l2 : RepoLevel} {repo : String}
    {l3 : OidLevel} (h1 : dlookup l2 (some repo) = none)
    (h2 : dlookup l2 none = some l3) (oid : Option String) :
    resolveRepo l2 repo oid = dlookup l3 none := by
  unfold resolveRepo
  rw [h1, h2]

theorem resolveRepo_none_none {l2 : RepoLevel} {repo : String}
    (h1 : dlookup l2 (some repo) = none) (h2 : dlookup l2 none = none)
    (oid : Option String) :
    resolveRepo l2 repo oid = none := by
  unfold resolveRepo
  rw [h1, h2]

theorem resolveOid_some {l3 : OidLevel} {oid : Option String}
    {s : List Permission} (h : dlookup l3 oid = some s) :
    resolveOid l3 oid = some s := by
  unfold resolveOid
  rw [h]

theorem resolveOid_none {l3 : OidLevel} {oid : Option String}
    (h : dlookup l3 oid = none) :
    resolveOid l3 oid = dlookup l3 none := by
  unfold resolveOid
  rw [h]

theorem resolveGlobal_some {l2 : RepoLevel} {l3 : OidLevel}
    (h : dlookup l2 none = some l3) (oid : Option String) :
    resolveGlobal l2 oid = dlookup l3 oid := by
  unfold resolveGlobal
  rw [h]

theorem resolveGlobal_none {l2 : RepoLevel} (h : dlookup l2 none = none)
    (oid : Option String) :
    resolveGlobal l2 oid = none := by
  unfold resolveGlobal
  rw [h]

/-- Boolean verdict from a resolved permission set. -/
def verdict (s : Option (List Permission)) (permission : Permission) : Bool :=
  match s with
  | none => false
  | some l => decide (permission ∈ l)

theorem isAuthorized_fst (t : PermissionTree) (organization repo : String)
    (permission : Permission) (oid : Option String) :
    (isAuthorized t organization repo permission oid).fst
      = verdict (lookupPerm t organization repo oid) permission := by
  unfold isAuthorized lookupPerm resolveRepo resolveOid resolveGlobal
  repeat' split
  all_goals simp_all [verdict]

/-- `giftless.auth.allow_anon.read_only`: an anonymous identity holding a
single global wildcard grant of `{READ, READ_META}`. -/
def readOnlyTree : PermissionTree :=
  allow [] none none (some [.READ, .READ_META]) none

/-- C1 counterexample: `read_only`'s only grant is the global wildcard grant
of a set containing `READ`, yet a query passing a concrete oid is denied,
because the global branch of `is_authorized` looks up the entry keyed by the
query's oid instead of falling back to the wildcard entry. -/
theorem C1_counterexample :
    Permission.READ ∈ [Permission.READ, Permission.READ_META]
    ∧ (isAuthorized readOnlyTree "myorg" "myrepo" Permission.READ
        (some "abc")).fst = false := by
  constructor
  · decide
  · rfl

/-- C1 (amended): for an identity whose only grant is a global wildcard
`allow(P)`, `is_authorized(org, repo, perm, oid)` returns true for every
org, every repo and every `perm ∈ P` when `oid` is omitted (`None`); a call
passing a concrete oid consults the global level's entry keyed by that oid
and returns false. -/
theorem C1_global_wildcard (P : List Permission) (org repo : String)
    (perm : Permission) (oid : String) :
    (isAuthorized (allow [] none none (some P) none) org repo perm none).fst
        = decide (perm ∈ P)
    ∧ (isAuthorized (allow [] none none (some P) none) org repo perm
        (some oid)).fst = false := by
  constructor <;> rfl

/-- Tree produced by `allow(organization='o', repo='r', {READ})`, used to
exhibit non-monotonic behaviour of further `allow` calls. -/
def c2Base : PermissionTree :=
  allow [] (some "o") (some "r") (some [.READ]) none

/-- C2 counterexample: `allow` can revoke.  First, `allow(o, r)` with
`permissions=None` resets the repo-wide entry, turning a previously granted
READ into a denial.  Second, `allow(o, r, {WRITE}, oid='x')` creates a more
specific entry that shadows the repo-wide READ grant for oid `x`. -/
theorem C2_counterexample :
    ((isAuthorized c2Base "o" "r" Permission.READ none).fst = true
      ∧ (isAuthorized (allow c2Base (some "o") (some "r") none none)
          "o" "r" Permission.READ none).fst = false)
    ∧ ((isAuthorized c2Base "o" "r" Permission.READ (some "x")).fst = true
      ∧ (isAuthorized
          (allow c2Base (some "o") (some "r") (some [Permission.WRITE])
            (some "x"))
          "o" "r" Permission.READ (some "x")).fst = false) := by
  refine ⟨⟨rfl, rfl⟩, rfl, rfl⟩

/-- C2 (amended): `allow` with a non-`None` permission set whose target
`(org, repo, oid)` coordinate already has an entry at all three levels never
revokes: it only unions permissions into that existing entry, so every query
that was authorized before stays authorized.  (In general `allow` *can*
revoke: `permissions=None` resets the targeted entry, and creating a new,
more specific entry shadows a wider grant, as the counterexample shows.) -/
theorem C2_allow_union_monotonic
    (t : PermissionTree) (org repo oid : Option String) (P : List Permission)
    (l2 : RepoLevel) (l3 : OidLevel) (s : List Permission)
    (h1 : dlookup t org = some l2) (h2 : dlookup l2 repo = some l3)
    (h3 : dlookup l3 oid = some s)
    (org₂ repo₂ : String) (perm : Permission) (oid₂ : Option String)
    (hq : (isAuthorized t org₂ repo₂ perm oid₂).fst = true) :
    (isAuthorized (allow t org repo (some P) oid) org₂ repo₂ perm oid₂).fst
      = true := by
  rw [isAuthorized_fst] at hq ⊢
  have hall : allow t org repo (some P) oid
      = dset t org (dset l2 repo (dset l3 oid (s.union P))) := by
    simp [allow, h1, h2, h3]
  rw [hall]
  by_cases hO : (some org₂ : Option String) = org
  · have e1 : dlookup (dset t org (dset l2 repo (dset l3 oid (s.union P))))
        (some org₂) = some (dset l2 repo (dset l3 oid (s.union P))) := by
      rw [dlookup_dset, if_pos hO]
    have e1t : dlookup t (some org₂) = some l2 := by rw [hO]; exact h1
    rw [lookupPerm_org_some e1]
    rw [lookupPerm_org_some e1t] at hq
    by_cases hR : (some repo₂ : Option String) = repo
    · have e2 : dlookup (dset l2 repo (dset l3 oid (s.union P)))
          (some repo₂) = some (dset l3 oid (s.union P)) := by
        rw [dlookup_dset, if_pos hR]
      have e2t : dlookup l2 (some repo₂) = some l3 := by rw [hR]; exact h2
      rw [resolveRepo_some e2]
      rw [resolveRepo_some e2t] at hq
      by_cases hI : oid₂ = oid
      · have e3 : dlookup (dset l3 oid (s.union P)) oid₂
            = some (s.union P) := by rw [hI, dlookup_dset_self]
        have e3t : dlookup l3 oid₂ = some s := by rw [hI]; exact h3
        rw [resolveOid_some e3]
        rw [resolveOid_some e3t] at hq
        simp only [verdict, decide_eq_true_eq] at hq ⊢
        exact List.mem_union_iff.mpr (Or.inl hq)
      · have e3 : dlookup (dset l3 oid (s.union P)) oid₂
            = dlookup l3 oid₂ := dlookup_dset_ne _ _ _ _ hI
        rcases hv : dlookup l3 oid₂ with _ | s₂
        · rw [resolveOid_none (e3.trans hv)]
          rw [resolveOid_none hv] at hq
          by_cases hIN : (none : Option String) = oid
          · have e4 : dlookup (dset l3 oid (s.union P)) none
                = some (s.union P) := by rw [hIN, dlookup_dset_self]
            have e4t : dlookup l3 none = some s := by rw [hIN]; exact h3
            rw [e4]
            rw [e4t] at hq
            simp only [verdict, decide_eq_true_eq] at hq ⊢
            exact List.mem_union_iff.mpr (Or.inl hq)
          · rw [dlookup_dset_ne _ _ _ _ hIN]
            exact hq
        · rw [resolveOid_some (e3.trans hv)]
          rw [resolveOid_some hv] at hq
          exact hq
    · have e2 : dlookup (dset l2 repo (dset l3 oid (s.union P)))
          (some repo₂) = dlookup l2 (some repo₂) :=
        dlookup_dset_ne _ _ _ _ hR
      rcases hv : dlookup l2 (some repo₂) with _ | l3₂
      · by_cases hRN : (none : Option String) = repo
        · have e5 : dlookup (dset l2 repo (dset l3 oid (s.union P))) none
              = some (dset l3 oid (s.union P)) := by
            rw [hRN, dlookup_dset_self]
          have e5t : dlookup l2 none = some l3 := by rw [hRN]; exact h2
          rw [resolveRepo_none_some (e2.trans hv) e5]
          rw [resolveRepo_none_some hv e5t] at hq
          by_cases hIN : (none : Option String) = oid
          · have e6 : dlookup (dset l3 oid (s.union P)) none
                = some (s.union P) := by rw [hIN, dlookup_dset_self]
            have e6t : dlookup l3 none = some s := by rw [hIN]; exact h3
            rw [e6]
            rw [e6t] at hq
            simp only [verdict, decide_eq_true_eq] at hq ⊢
            exact List.mem_union_iff.mpr (Or.inl hq)
          · rw [dlookup_dset_ne _ _ _ _ hIN]
            exact hq
        · have e5 : dlookup (dset l2 repo (dset l3 oid (s.union P))) none
              = dlookup l2 none := dlookup_dset_ne _ _ _ _ hRN
          rcases hw : dlookup l2 none with _ | l3₃
          · rw [resolveRepo_none_none (e2.trans hv) (e5.trans hw)]
            rw [resolveRepo_none_none hv hw] at hq
            exact hq
          · rw [resolveRepo_none_some (e2.trans hv) (e5.trans hw)]
            rw [resolveRepo_none_some hv hw] at hq
            exact hq
      · rw [resolveRepo_some (e2.trans hv)]
        rw [resolveRepo_some hv] at hq
        exact hq
  · have e1 : dlookup (dset t org (dset l2 repo (dset l3 oid (s.union P))))
        (some org₂) = dlookup t (some org₂) := dlookup_dset_ne _ _ _ _ hO
    rcases hv : dlookup t (some org₂) with _ | l2₂
    · by_cases hON : (none : Option String) = org
      · have e7 : dlookup (dset t org (dset l2 repo (dset l3 oid (s.union P))))
            none = some (dset l2 repo (dset l3 oid (s.union P))) := by
          rw [hON, dlookup_dset_self]
        have e7t : dlookup t none = some l2 := by rw [hON]; exact h1
        rw [lookupPerm_org_none (e1.trans hv) e7]
        rw [lookupPerm_org_none hv e7t] at hq
        by_cases hRN : (none : Option String) = repo
        · have e8 : dlookup (dset l2 repo (dset l3 oid (s.union P))) none
              = some (dset l3 oid (s.union P)) := by
            rw [hRN, dlookup_dset_self]
          have e8t : dlookup l2 none = some l3 := by rw [hRN]; exact h2
          rw [resolveGlobal_some e8]
          rw [resolveGlobal_some e8t] at hq
          by_cases hI : oid₂ = oid
          · have e9 : dlookup (dset l3 oid (s.union P)) oid₂
                = some (s.union P) := by rw [hI, dlookup_dset_self]
            have e9t : dlookup l3 oid₂ = some s := by rw [hI]; exact h3
            rw [e9]
            rw [e9t] at hq
            simp only [verdict, decide_eq_true_eq] at hq ⊢
            exact List.mem_union_iff.mpr (Or.inl hq)
          · rw [dlookup_dset_ne _ _ _ _ hI]
            exact hq
        · have e8 : dlookup (dset l2 repo (dset l3 oid (s.union P))) none
              = dlookup l2 none := dlookup_dset_ne _ _ _ _ hRN
          rcases hw : dlookup l2 none with _ | l3₃
          · rw [resolveGlobal_none (e8.trans hw)]
            rw [resolveGlobal_none hw] at hq
            exact hq
          · rw [resolveGlobal_some (e8.trans hw)]
            rw [resolveGlobal_some hw] at hq
            exact hq
      · have e7 : dlookup (dset t org (dset l2 repo (dset l3 oid (s.union P))))
            none = dlookup t none := dlookup_dset_ne _ _ _ _ hON
        rcases hw : dlookup t none with _ | l2₃
        · rw [lookupPerm_none_none (e1.trans hv) (e7.trans hw)]
          rw [lookupPerm_none_none hv hw] at hq
          exact hq
        · rw [lookupPerm_org_none (e1.trans hv) (e7.trans hw)]
          rw [lookupPerm_org_none hv hw] at hq
          exact hq
    · rw [lookupPerm_org_some (e1.trans hv)]
      rw [lookupPerm_org_some hv] at hq
      exact hq

/-- C2 witness: enlarging the existing `(o, r, None)` entry of `c2Base` with
`WRITE` keeps the previously granted READ authorized. -/
theorem C2_witness :
    (isAuthorized
      (allow c2Base (some "o") (some "r") (some [Permission.WRITE]) none)
      "o" "r" Permission.READ none).fst = true :=
  C2_allow_union_monotonic c2Base (some "o") (some "r") none
    [Permission.WRITE]
    [(some "r", [(none, [Permission.READ])])]
    [(none, [Permission.READ])] [Permission.READ]
    rfl rfl rfl "o" "r" Permission.READ none rfl

theorem verdict_lookupPerm_mut1 (t : PermissionTree) (org : String)
    (l2 : RepoLevel) (l3 : OidLevel)
    (h1 : dlookup t (some org) = some l2)
    (h2 : dlookup l2 none = some l3) (h3 : dlookup l3 none = none)
    (org₂ repo₂ : String) (perm : Permission) (oid₂ : Option String) :
    verdict (lookupPerm (dset t (some org) (dset l2 none (dset l3 none [])))
        org₂ repo₂ oid₂) perm
      = verdict (lookupPerm t org₂ repo₂ oid₂) perm := by
  by_cases hO : org₂ = org
  · have hOk : (some org₂ : Option String) = some org := by rw [hO]
    have e1 : dlookup (dset t (some org) (dset l2 none (dset l3 none [])))
        (some org₂) = some (dset l2 none (dset l3 none [])) := by
      rw [dlookup_dset, if_pos hOk]
    have e1t : dlookup t (some org₂) = some l2 := by rw [hOk]; exact h1
    rw [lookupPerm_org_some e1, lookupPerm_org_some e1t]
    have e2 : dlookup (dset l2 none (dset l3 none [])) (some repo₂)
        = dlookup l2 (some repo₂) := dlookup_dset_ne _ _ _ _ (by simp)
    rcases hv : dlookup l2 (some repo₂) with _ | l3₂
    · have e5 : dlookup (dset l2 none (dset l3 none [])) none
          = some (dset l3 none []) := dlookup_dset_self _ _ _
      rw [resolveRepo_none_some (e2.trans hv) e5,
        resolveRepo_none_some hv h2]
      rw [dlookup_dset_self, h3]
      rfl
    · rw [resolveRepo_some (e2.trans hv), resolveRepo_some hv]
  · have hOk : ¬ (some org₂ : Option String) = some org := by simp [hO]
    have e1 : dlookup (dset t (some org) (dset l2 none (dset l3 none [])))
        (some org₂) = dlookup t (some org₂) := dlookup_dset_ne _ _ _ _ hOk
    rcases hv : dlookup t (some org₂) with _ | l2₂
    · have e7 : dlookup (dset t (some org) (dset l2 none (dset l3 none [])))
          none = dlookup t none := dlookup_dset_ne _ _ _ _ (by simp)
      rcases hw : dlookup t none with _ | l2₃
      · rw [lookupPerm_none_none (e1.trans hv) (e7.trans hw),
          lookupPerm_none_none hv hw]
      · rw [lookupPerm_org_none (e1.trans hv) (e7.trans hw),
          lookupPerm_org_none hv hw]
    · rw [lookupPerm_org_some (e1.trans hv), lookupPerm_org_some hv]

theorem verdict_lookupPerm_mut2 (t : PermissionTree)
    (l2 : RepoLevel) (l3 : OidLevel) (oid : Option String)
    (h1 : dlookup t none = some l2) (h2 : dlookup l2 none = some l3)
    (h3 : dlookup l3 oid = none)
    (org₂ repo₂ : String) (perm : Permission) (oid₂ : Option String) :
    verdict (lookupPerm (dset t none (dset l2 none (dset l3 oid [])))
        org₂ repo₂ oid₂) perm
      = verdict (lookupPerm t org₂ repo₂ oid₂) perm := by
  have e1 : dlookup (dset t none (dset l2 none (dset l3 oid [])))
      (some org₂) = dlookup t (some org₂) := dlookup_dset_ne _ _ _ _ (by simp)
  rcases hv : dlookup t (some org₂) with _ | l2₂
  · have e7 : dlookup (dset t none (dset l2 none (dset l3 oid []))) none
        = some (dset l2 none (dset l3 oid [])) := dlookup_dset_self _ _ _
    rw [lookupPerm_org_none (e1.trans hv) e7, lookupPerm_org_none hv h1]
    have e8 : dlookup (dset l2 none (dset l3 oid [])) none
        = some (dset l3 oid []) := dlookup_dset_self _ _ _
    rw [resolveGlobal_some e8, resolveGlobal_some h2]
    by_cases hI : oid₂ = oid
    · rw [hI, dlookup_dset_self, h3]
      rfl
    · rw [dlookup_dset_ne _ _ _ _ hI]
  · rw [lookupPerm_org_some (e1.trans hv), lookupPerm_org_some hv]

/-- C3 counterexample: `is_authorized` is not read-only.  Querying the
anonymous read-only identity with a concrete oid makes the global-branch
`defaultdict` lookup insert an empty entry keyed by that oid, changing the
permission tree. -/
theorem C3_counterexample :
    (isAuthorized readOnlyTree "myorg" "myrepo" Permission.READ
        (some "abc")).snd ≠ readOnlyTree
    ∧ dlookup ((dlookup ((dlookup (isAuthorized readOnlyTree "myorg" "myrepo"
        Permission.READ (some "abc")).snd none).getD []) none).getD [])
        (some "abc") = some [] := by
  have h2 : dlookup ((dlookup ((dlookup (isAuthorized readOnlyTree "myorg"
      "myrepo" Permission.READ (some "abc")).snd none).getD []) none).getD [])
      (some "abc") = some [] := rfl
  refine ⟨?_, h2⟩
  intro h
  rw [h] at h2
  exact absurd h2 (by decide)

/-- C3 (amended): `is_authorized` can add empty permission-set entries at the
innermost level of the tree (through the two `defaultdict` index
expressions), but it never changes the answer of any authorization query:
the tree it returns is observationally equivalent to the tree it was given,
so in particular two identical queries always return the same result. -/
theorem C3_queries_stable (t : PermissionTree) (org repo : String)
    (perm : Permission) (oid : Option String)
    (org₂ repo₂ : String) (perm₂ : Permission) (oid₂ : Option String) :
    (isAuthorized ((isAuthorized t org repo perm oid).snd)
        org₂ repo₂ perm₂ oid₂).fst
      = (isAuthorized t org₂ repo₂ perm₂ oid₂).fst := by
  rw [isAuthorized_fst, isAuthorized_fst]
  unfold isAuthorized
  repeat' split
  all_goals try rfl
  · exact verdict_lookupPerm_mut1 t org _ _ (by assumption) (by assumption)
      (by assumption) org₂ repo₂ perm₂ oid₂
  · exact verdict_lookupPerm_mut2 t _ _ oid (by assumption) (by assumption)
      (by assumption) org₂ repo₂ perm₂ oid₂

/-- Per-object error payload `{code, message}` (`StorageError.as_dict`). -/
structure ErrorInfo where
  code : Int
  message : String
deriving DecidableEq

/-- A single action of a batch response entry (`href`, `header`,
`expires_in`). -/
structure ActionSpec where
  href : String
  header : List (String × String)
  expiresIn : Int
deriving DecidableEq

/-- A per-object batch result as assembled by the transfer adapters:
`{oid, size}` plus optional `actions`, `authenticated` and `error` keys. -/
structure ObjectResult where
  oid : String
  size : Int
  actions : Option (List (String × ActionSpec)) := none
  authenticated : Option Bool := none
  error : Option ErrorInfo := none
deriving DecidableEq

/-- `BatchView._is_error(obj, code)`: Python evaluates
`obj["error"]["code"] == code or code is None`, catching `KeyError` as
`False` when the object has no error entry. -/
def isErrorWith (o : ObjectResult) (code : Option Int) : Bool :=
  match o.error with
  | none => false
  | some e => decide (some e.code = code) || code.isNone

/-- Outcome of a batch POST after the per-object results are collected:
an HTTP 404, an HTTP 422, or a 200 response `{transfer, objects}`. -/
inductive BatchOutcome where
  | notFound (message : String)
  | invalidPayload (message : String)
  | ok (transfer : String) (objects : List ObjectResult)
deriving DecidableEq

/-- Error aggregation at the end of `BatchView.post`: 404 when every object
is a 404-error, else 422 when every object is an error, else 200 with the
chosen transfer key and the full result list. -/
def aggregateBatchResults (transferType : String)
    (objects : List ObjectResult) : BatchOutcome :=
  if objects.all (fun o => isErrorWith o (some 404)) then
    .notFound "Cannot find any of the requested objects"
  else if objects.all (fun o => isErrorWith o none) then
    .invalidPayload "Cannot validate any of the requested objects"
  else
    .ok transferType objects

theorem isErrorWith_code_iff (o : ObjectResult) (c : Int) :
    isErrorWith o (some c) = true ↔ ∃ e, o.error = some e ∧ e.code = c := by
  unfold isErrorWith
  rcases h : o.error with _ | e <;> simp [h]

theorem isErrorWith_none_iff (o : ObjectResult) :
    isErrorWith o none = true ↔ o.error.isSome = true := by
  unfold isErrorWith
  rcases h : o.error with _ | e <;> simp [h]

/-- C5: the batch endpoint responds 404 iff every collected object result
carries an error with code 404; otherwise it responds 422 iff every object
result carries an error (of any code); otherwise it responds 200 with the
chosen transfer key and the full list of per-object results — so a mix of
successful and failed objects never fails the batch. -/
theorem C5_batch_error_aggregation (tk : String) (objs : List ObjectResult) :
    (aggregateBatchResults tk objs
        = BatchOutcome.notFound "Cannot find any of the requested objects"
      ↔ ∀ o ∈ objs, ∃ e, o.error = some e ∧ e.code = 404)
    ∧ (aggregateBatchResults tk objs
        = BatchOutcome.invalidPayload
            "Cannot validate any of the requested objects"
      ↔ ((¬ ∀ o ∈ objs, ∃ e, o.error = some e ∧ e.code = 404)
          ∧ ∀ o ∈ objs, o.error.isSome = true))
    ∧ ((∃ o ∈ objs, o.error = none)
        → aggregateBatchResults tk objs = BatchOutcome.ok tk objs) := by
  have H1 : objs.all (fun o => isErrorWith o (some 404)) = true
      ↔ ∀ o ∈ objs, ∃ e, o.error = some e ∧ e.code = 404 := by
    simp [List.all_eq_true, isErrorWith_code_iff]
  have H2 : objs.all (fun o => isErrorWith o none) = true
      ↔ ∀ o ∈ objs, o.error.isSome = true := by
    simp [List.all_eq_true, isErrorWith_none_iff]
  unfold aggregateBatchResults
  by_cases h1 : objs.all (fun o => isErrorWith o (some 404)) = true
  · rw [if_pos h1]
    refine ⟨⟨fun _ => H1.mp h1, fun _ => rfl⟩, ⟨?_, ?_⟩, ?_⟩
    · intro hEq
      exact absurd hEq (by simp)
    · intro hc
      exact absurd (H1.mp h1) hc.1
    · intro hex
      obtain ⟨o, ho, he⟩ := hex
      obtain ⟨e, he2, _⟩ := H1.mp h1 o ho
      rw [he] at he2
      exact Option.noConfusion he2
  · rw [if_neg h1]
    by_cases h2 : objs.all (fun o => isErrorWith o none) = true
    · rw [if_pos h2]
      refine ⟨⟨?_, ?_⟩, ⟨fun _ => ⟨fun hall => h1 (H1.mpr hall), H2.mp h2⟩,
          fun _ => rfl⟩, ?_⟩
      · intro hEq
        exact absurd hEq (by simp)
      · intro hall
        exact absurd (H1.mpr hall) h1
      · intro hex
        obtain ⟨o, ho, he⟩ := hex
        have hs := H2.mp h2 o ho
        rw [he] at hs
        exact absurd hs (by simp)
    · rw [if_neg h2]
      refine ⟨⟨?_, ?_⟩, ⟨?_, ?_⟩, fun _ => rfl⟩
      · intro hEq
        exact absurd hEq (by simp)
      · intro hall
        exact absurd (H1.mpr hall) h1
      · intro hEq
        exact absurd hEq (by simp)
      · intro hc
        exact absurd (H2.mpr hc.2) h2

/-- Result entry with no error, used as a witness input. -/
def c5okObj : ObjectResult := { oid := "aaaa", size := 8 }

/-- Result entry carrying a 404 error, used as a witness input. -/
def c5errObj : ObjectResult :=
  { oid := "bbbb", size := 5555, error := some ⟨404, "Object does not exist"⟩ }

/-- C5 witness: a batch mixing one successful and one failed object is a 200
response carrying both results. -/
theorem C5_witness :
    aggregateBatchResults "basic" [c5okObj, c5errObj]
      = BatchOutcome.ok "basic" [c5okObj, c5errObj] :=
  (C5_batch_error_aggregation "basic" [c5okObj, c5errObj]).2.2
    ⟨c5okObj, List.mem_cons_self _ _, rfl⟩

/-- Fragment returned by `ExternalStorage.get_upload_action`, merged into the
response dict via `dict.update`. -/
structure StorageUploadReply where
  actions : Option (List (String × ActionSpec)) := none
  error : Option ErrorInfo := none

/-- `response.update(reply)`: keys present in the reply replace the
response's. -/
def applyStorageReply (r : ObjectResult) (u : StorageUploadReply) :
    ObjectResult :=
  { r with
    actions := match u.actions with
      | some a => some a
      | none => r.actions,
    error := match u.error with
      | some e => some e
      | none => r.error }

/-- The two `ExternalStorage` capabilities the basic external adapter's
`upload` consults (`verify_object` and `get_upload_action`). -/
structure ExternalStorageModel where
  verifyObject : String → String → Int → Bool
  getUploadAction : String → String → Int → Int → StorageUploadReply

/-- `PreAuthorizingTransferAdapter.VERIFY_LIFETIME = 12 * 60 * 60`. -/
def VERIFY_LIFETIME : Int := 12 * 60 * 60

/-- `BasicExternalBackendTransferAdapter.upload`.  Collaborators that are
out of scope (the pre-auth handler producing headers and Flask's URL
builder for the verify endpoint) are passed in as functions. -/
def basicExternalUpload (storage : ExternalStorageModel)
    (providesPreauth : Bool)
    (preauthHeaders :
      String → String → List String → Option String → Int →
        List (String × String))
    (verifyUrlOf : String → String → String)
    (actionLifetime : Int) (organization repo oid : String) (size : Int) :
    ObjectResult :=
  let pfx := organization ++ "/" ++ repo
  let response : ObjectResult := { oid := oid, size := size }
  if storage.verifyObject pfx oid size then
    response
  else
    let response :=
      applyStorageReply response
        (storage.getUploadAction pfx oid size actionLifetime)
    match dlookup (response.actions.getD []) "upload" with
    | some _ =>
      { response with
        authenticated := some providesPreauth,
        actions := some (dset (response.actions.getD []) "verify"
          { href := verifyUrlOf organization repo,
            header :=
              preauthHeaders organization repo ["verify"] (some oid)
                VERIFY_LIFETIME,
            expiresIn := VERIFY_LIFETIME }) }
    | none => response

/-- C6: when `verify_object('<org>/<repo>', oid, size)` is true, `upload`
returns exactly `{oid, size}` with neither actions nor error; otherwise,
whenever the storage's action plan contains an `upload` action, the
response additionally carries a `verify` action whose `expires_in` is
`VERIFY_LIFETIME` = 43200 seconds (12 hours), a constant independent of the
adapter's configured action lifetime, while the storage-provided upload
action is kept unchanged. -/
theorem C6_external_upload_verify (storage : ExternalStorageModel)
    (providesPreauth : Bool)
    (preauthHeaders :
      String → String → List String → Option String → Int →
        List (String × String))
    (verifyUrlOf : String → String → String)
    (actionLifetime : Int) (organization repo oid : String) (size : Int) :
    (storage.verifyObject (organization ++ "/" ++ repo) oid size = true →
      basicExternalUpload storage providesPreauth preauthHeaders verifyUrlOf
          actionLifetime organization repo oid size
        = { oid := oid, size := size })
    ∧ (storage.verifyObject (organization ++ "/" ++ repo) oid size = false →
      ∀ a, dlookup ((storage.getUploadAction (organization ++ "/" ++ repo)
            oid size actionLifetime).actions.getD []) "upload" = some a →
        ∃ v, dlookup ((basicExternalUpload storage providesPreauth
              preauthHeaders verifyUrlOf actionLifetime organization repo oid
              size).actions.getD []) "verify" = some v
          ∧ v.expiresIn = VERIFY_LIFETIME
          ∧ VERIFY_LIFETIME = 43200
          ∧ dlookup ((basicExternalUpload storage providesPreauth
              preauthHeaders verifyUrlOf actionLifetime organization repo oid
              size).actions.getD []) "upload" = some a) := by
  constructor
  · intro h
    unfold basicExternalUpload
    rw [if_pos h]
  · intro h a ha
    unfold basicExternalUpload
    rw [if_neg (by simp [h])]
    have hact : (applyStorageReply { oid := oid, size := size }
        (storage.getUploadAction (organization ++ "/" ++ repo) oid size
          actionLifetime)).actions
        = (storage.getUploadAction (organization ++ "/" ++ repo) oid size
            actionLifetime).actions := by
      cases hu : (storage.getUploadAction (organization ++ "/" ++ repo) oid
          size actionLifetime).actions <;>
        simp [applyStorageReply, hu]
    simp only [hact, ha]
    refine ⟨⟨verifyUrlOf organization repo,
      preauthHeaders organization repo ["verify"] (some oid) VERIFY_LIFETIME,
      VERIFY_LIFETIME⟩, ?_, rfl, rfl, ?_⟩
    · simp only [Option.getD_some]
      exact dlookup_dset_self _ _ _
    · simp only [Option.getD_some]
      rw [dlookup_dset_ne _ _ _ _
        (by decide : ¬ ("upload" : String) = "verify")]
      exact ha

/-- Storage stub used as a witness input: the object is not yet present and
the plan carries one upload action at the configured lifetime. -/
def c6Storage : ExternalStorageModel :=
  { verifyObject := fun _ _ _ => false,
    getUploadAction := fun _ _ _ lifetime =>
      { actions := some [("upload", ⟨"storage-upload-url", [], lifetime⟩)] } }

/-- C6 witness: on the stub storage, the adapter's response keeps the upload
action at the configured lifetime 900 and adds a verify action at the
distinct constant lifetime 43200. -/
theorem C6_witness :
    ∃ v, dlookup ((basicExternalUpload c6Storage true (fun _ _ _ _ _ => [])
          (fun _ _ => "verify-url") 900 "myorg" "myrepo" "abc"
          8).actions.getD []) "verify" = some v
      ∧ v.expiresIn = VERIFY_LIFETIME
      ∧ VERIFY_LIFETIME = 43200
      ∧ dlookup ((basicExternalUpload c6Storage true (fun _ _ _ _ _ => [])
          (fun _ _ => "verify-url") 900 "myorg" "myrepo" "abc"
          8).actions.getD []) "upload"
          = some ⟨"storage-upload-url", [], 900⟩ :=
  (C6_external_upload_verify c6Storage true (fun _ _ _ _ _ => [])
    (fun _ _ => "verify-url") 900 "myorg" "myrepo" "abc" 8).2 rfl
    ⟨"storage-upload-url", [], 900⟩ rfl

/-- JSON values, the payloads the marshmallow schemas load. -/
inductive JVal where
  | null
  | jbool (b : Bool)
  | jnum (n : Int)
  | jstr (s : String)
  | jarr (items : List JVal)
  | jobj (fields : List (String × JVal))

/-- Batch `operation` enumeration. -/
inductive Operation where
  | upload
  | download
deriving DecidableEq

/-- Loaded `ref` field (`RefSchema`). -/
structure RefObj where
  name : String
deriving DecidableEq

/-- A loaded object entry: `oid`, `size` and the `extra` map collected from
`x-*` fields. -/
structure ParsedObject where
  oid : String
  size : Int
  extra : List (String × JVal)

/-- A loaded batch request. -/
structure ParsedBatchRequest where
  operation : Operation
  transfers : List String
  ref : Option RefObj
  objects : List ParsedObject

/-- Marshmallow unknown-field policy: `RAISE` rejects unknown keys (the
default), `EXCLUDE` drops them. -/
inductive UnknownPolicy where
  | raiseUnknown
  | excludeUnknown

/-- Apply the unknown-field policy to a loaded object's keys. -/
def checkUnknown (policy : UnknownPolicy) (known : List String)
    (fields : List (String × JVal)) : Except String Unit :=
  match policy with
  | .excludeUnknown => .ok ()
  | .raiseUnknown =>
    if fields.all (fun kv => known.contains kv.1) then .ok ()
    else .error "Unknown field."

/-- Python `k.startswith('x-')`, written on the character list. -/
def strStartsWithXDash (s : String) : Bool :=
  match s.data with
  | 'x' :: '-' :: _ => true
  | _ => false

/-- Python `k[2:]` (dropping the `x-` marker), written on the character
list. -/
def strDropXDash (s : String) : String :=
  String.mk (s.data.drop 2)

/-- `fields.Enum(Operation)`: accepts the two operation names. -/
def parseOperation : JVal → Except String Operation
  | .jstr "upload" => .ok .upload
  | .jstr "download" => .ok .download
  | _ => .error "Must be one of: upload, download."

/-- `fields.List(fields.String)`. -/
def parseStringList : JVal → Except String (List String)
  | .jarr items => items.mapM (fun v =>
      match v with
      | .jstr s => Except.ok s
      | _ => Except.error "Not a valid string.")
  | _ => .error "Not a valid list."

/-- `RefSchema`: required `name` string, unknown keys rejected (marshmallow
default `RAISE`). -/
def parseRef (v : JVal) : Except String RefObj :=
  match v with
  | .jobj fields => do
    let _ ← checkUnknown .raiseUnknown ["name"] fields
    match dlookup fields "name" with
    | some (.jstr s) => .ok ⟨s⟩
    | some _ => .error "Not a valid string."
    | none => .error "Missing data for required field."
  | _ => .error "Invalid input type."

/-- Keys the `ObjectSchema` declares. -/
def objectKnownKeys : List String := ["oid", "size", "extra"]

/-- `ObjectSchema` load: the `set_extra_fields` pre-load hook moves every
`x-*` key, stripped of its prefix marker, into the `extra` dict (a literal
`extra` key in the payload overrides the computed one, as in
`{"extra": extra, **rest}`), then the schema loads `oid`, `size ≥ 0` and
`extra`, rejecting unknown keys (`RAISE`, the marshmallow default). -/
def parseObjectEntry (v : JVal) : Except String ParsedObject :=
  match v with
  | .jobj fields =>
    let extra := (fields.filter (fun kv => strStartsWithXDash kv.1)).map
      (fun kv => (strDropXDash kv.1, kv.2))
    let rest := fields.filter (fun kv => ! strStartsWithXDash kv.1)
    let data := rest ++
      (if (dlookup rest "extra").isSome then []
       else [("extra", JVal.jobj extra)])
    (checkUnknown .raiseUnknown objectKnownKeys data).bind fun _ =>
      match dlookup data "oid", dlookup data "size" with
      | some (.jstr oid), some (.jnum size) =>
        if 0 ≤ size then
          match dlookup data "extra" with
          | some (.jobj ex) => .ok ⟨oid, size, ex⟩
          | some _ => .error "Not a valid mapping type."
          | none => .ok ⟨oid, size, []⟩
        else .error "Must be greater than or equal to 0."
      | _, _ => .error "Invalid object entry."
  | _ => .error "Invalid input type."

/-- Keys the `BatchRequest` schema declares. -/
def batchKnownKeys : List String :=
  ["operation", "transfers", "ref", "objects"]

/-- `batch_request_schema.load`: the schema instance is constructed with
`unknown=marshmallow.EXCLUDE` (schema.py line 63), so unknown top-level
keys are dropped; `operation` and a non-empty `objects` list are required,
`transfers` defaults to `["basic"]`, `ref` is optional. -/
def parseBatchRequest (v : JVal) : Except String ParsedBatchRequest :=
  match v with
  | .jobj fields =>
    (checkUnknown .excludeUnknown batchKnownKeys fields).bind fun _ =>
    (match dlookup fields "operation" with
      | some ov => parseOperation ov
      | none => .error "Missing data for required field.").bind fun op =>
    (match dlookup fields "transfers" with
      | some tv => parseStringList tv
      | none => .ok ["basic"]).bind fun transfers =>
    (match dlookup fields "ref" with
      | some rv => (parseRef rv).map some
      | none => .ok (none : Option RefObj)).bind fun ref =>
    (match dlookup fields "objects" with
      | some (.jarr items) =>
        if items.length ≥ 1 then items.mapM parseObjectEntry
        else .error "Shorter than minimum length 1."
      | some _ => .error "Not a valid list."
      | none => .error "Missing data for required field.").bind fun objs =>
    .ok ⟨op, transfers, ref, objs⟩
  | _ => .error "Invalid input type."

/-- C7 counterexample: a batch body with the unknown top-level field
`mystery` loads successfully (the schema is built with
`unknown=marshmallow.EXCLUDE`), instead of failing with a validation
error as the claim states. -/
theorem C7_counterexample :
    parseBatchRequest (.jobj [("operation", .jstr "download"),
      ("objects", .jarr [.jobj [("oid", .jstr "abc"), ("size", .jnum 1)]]),
      ("mystery", .jstr "x")])
      = .ok ⟨.download, ["basic"], none, [⟨"abc", 1, []⟩]⟩ := rfl

theorem dlookup_append_ne {α β : Type} [DecidableEq α]
    (l : List (α × β)) (k : α) (v : β) (key : α) (h : ¬ k = key) :
    dlookup (l ++ [(k, v)]) key = dlookup l key := by
  induction l with
  | nil => simp [dlookup, h]
  | cons hd tl ih =>
    obtain ⟨k₀, v₀⟩ := hd
    by_cases h0 : k₀ = key <;> simp [dlookup, h0, ih]

theorem parseBatch_ignores_unknown (fields : List (String × JVal))
    (k : String) (v : JVal) (hk : ¬ k ∈ batchKnownKeys) :
    parseBatchRequest (.jobj (fields ++ [(k, v)]))
      = parseBatchRequest (.jobj fields) := by
  have h1 : ¬ k = "operation" := by
    intro h; subst h; exact hk (by decide)
  have h2 : ¬ k = "transfers" := by
    intro h; subst h; exact hk (by decide)
  have h3 : ¬ k = "ref" := by
    intro h; subst h; exact hk (by decide)
  have h4 : ¬ k = "objects" := by
    intro h; subst h; exact hk (by decide)
  simp only [parseBatchRequest, dlookup_append_ne _ _ _ _ h1,
    dlookup_append_ne _ _ _ _ h2, dlookup_append_ne _ _ _ _ h3,
    dlookup_append_ne _ _ _ _ h4]
  rfl

theorem parseObject_extra_fields (o : String) (n : Int) (hn : 0 ≤ n)
    (xs : List (String × JVal))
    (hx : ∀ kv ∈ xs, strStartsWithXDash kv.1 = true) :
    parseObjectEntry (.jobj ([("oid", .jstr o), ("size", .jnum n)] ++ xs))
      = .ok ⟨o, n, xs.map (fun kv => (strDropXDash kv.1, kv.2))⟩ := by
  have hfilt : (([("oid", JVal.jstr o), ("size", JVal.jnum n)] ++ xs).filter
      (fun kv => strStartsWithXDash kv.1)) = xs := by
    rw [List.filter_append]
    have h0 : ([("oid", JVal.jstr o), ("size", JVal.jnum n)]
        : List (String × JVal)).filter
        (fun kv => strStartsWithXDash kv.1) = [] := rfl
    rw [h0, List.nil_append]
    exact List.filter_eq_self.mpr hx
  have hrest : (([("oid", JVal.jstr o), ("size", JVal.jnum n)] ++ xs).filter
      (fun kv => ! strStartsWithXDash kv.1))
      = [("oid", JVal.jstr o), ("size", JVal.jnum n)] := by
    rw [List.filter_append]
    have h0 : ([("oid", JVal.jstr o), ("size", JVal.jnum n)]
        : List (String × JVal)).filter
        (fun kv => ! strStartsWithXDash kv.1)
        = [("oid", JVal.jstr o), ("size", JVal.jnum n)] := rfl
    have h1 : xs.filter (fun kv => ! strStartsWithXDash kv.1) = [] := by
      refine List.filter_eq_nil_iff.mpr ?_
      intro kv hkv
      rw [hx kv hkv]
      simp
    rw [h0, h1, List.append_nil]
  simp only [parseObjectEntry]
  rw [hfilt, hrest]
  simp [checkUnknown, dlookup, objectKnownKeys, hn]
  rfl

theorem parseObject_unknown_rejected (o : String) (n : Int) (k : String)
    (v : JVal) (hks : strStartsWithXDash k = false)
    (hk : ¬ k ∈ objectKnownKeys) :
    parseObjectEntry (.jobj [("oid", .jstr o), ("size", .jnum n), (k, v)])
      = .error "Unknown field." := by
  have hk1 : ¬ k = "extra" := by
    intro h; subst h; exact hk (by decide)
  have hk2 : ¬ k = "oid" := by
    intro h; subst h; exact hk (by decide)
  have hk3 : ¬ k = "size" := by
    intro h; subst h; exact hk (by decide)
  simp only [parseObjectEntry]
  simp [checkUnknown, dlookup, objectKnownKeys, hks, hk1, hk2, hk3]
  rfl

/-- C7 (amended): unknown top-level fields of a batch request are *ignored*
(the schema is constructed with `unknown=marshmallow.EXCLUDE`), not
rejected; on object entries, every unknown field whose name starts with
`x-` is preserved, stripped of the prefix marker, as a key of the object's
`extra` map, while an unknown object field not starting with `x-` is
rejected with a validation error. -/
theorem C7_schema_unknown_fields :
    (∀ (fields : List (String × JVal)) (k : String) (v : JVal),
      ¬ k ∈ batchKnownKeys →
      parseBatchRequest (.jobj (fields ++ [(k, v)]))
        = parseBatchRequest (.jobj fields))
    ∧ (∀ (o : String) (n : Int), 0 ≤ n → ∀ (xs : List (String × JVal)),
        (∀ kv ∈ xs, strStartsWithXDash kv.1 = true) →
        parseObjectEntry (.jobj ([("oid", .jstr o), ("size", .jnum n)] ++ xs))
          = .ok ⟨o, n, xs.map (fun kv => (strDropXDash kv.1, kv.2))⟩)
    ∧ (∀ (o : String) (n : Int) (k : String) (v : JVal),
        strStartsWithXDash k = false → ¬ k ∈ objectKnownKeys →
        parseObjectEntry (.jobj [("oid", .jstr o), ("size", .jnum n), (k, v)])
          = .error "Unknown field.") :=
  ⟨parseBatch_ignores_unknown,
    fun o n hn xs hx => parseObject_extra_fields o n hn xs hx,
    parseObject_unknown_rejected⟩

/-- C7 witness: an unknown top-level `locks` field does not change the parse
result, and an `x-meta` object field lands in `extra` under the key
`meta`. -/
theorem C7_witness :
    parseBatchRequest (.jobj [("operation", .jstr "upload"),
        ("objects", .jarr []), ("locks", .jbool true)])
      = parseBatchRequest (.jobj [("operation", .jstr "upload"),
        ("objects", .jarr [])])
    ∧ parseObjectEntry (.jobj [("oid", .jstr "abc"), ("size", .jnum 1),
        ("x-meta", .jstr "m")])
      = .ok ⟨"abc", 1, [("meta", .jstr "m")]⟩ :=
  ⟨C7_schema_unknown_fields.1
      [("operation", .jstr "upload"), ("objects", .jarr [])]
      "locks" (.jbool true) (by decide),
    C7_schema_unknown_fields.2.1 "abc" 1 (by decide)
      [("x-meta", .jstr "m")]
      (by
        intro kv hkv
        rw [List.mem_singleton] at hkv
        subst hkv
        rfl)⟩

/-- Prepend a character to the first part of a split result (the nil case
is unreachable: splitting always yields at least one part). -/
def consHead (x : Char) : List (List Char) → List (List Char)
  | [] => [[x]]
  | h :: t => (x :: h) :: t

/-- Python `s.split(sep)` for a one-character separator, over character
lists; always returns at least one (possibly empty) part. -/
def splitChar (c : Char) : List Char → List (List Char)
  | [] => [[]]
  | x :: xs =>
    if x = c then [] :: splitChar c xs else consHead x (splitChar c xs)

/-- Python `s.split(sep, maxsplit)` for a one-character separator. -/
def splitCharMax (c : Char) : Nat → List Char → List (List Char)
  | _, [] => [[]]
  | 0, s => [s]
  | n + 1, x :: xs =>
    if x = c then [] :: splitCharMax c n xs
    else consHead x (splitCharMax c (n + 1) xs)

/-- Python `sep.join(parts)` for a one-character separator. -/
def joinChar (c : Char) : List (List Char) → List Char
  | [] => []
  | [s] => s
  | s :: rest => s ++ c :: joinChar c rest

theorem consHead_ne_nil (x : Char) (l : List (List Char)) :
    consHead x l ≠ [] := by
  cases l <;> simp [consHead]

theorem splitChar_ne_nil (c : Char) (s : List Char) : splitChar c s ≠ [] := by
  cases s with
  | nil => simp [splitChar]
  | cons x xs =>
    simp only [splitChar]
    by_cases hx : x = c
    · simp [hx]
    · simp only [if_neg hx]
      exact consHead_ne_nil x _

theorem splitChar_no_sep (c : Char) (p : List Char) (h : c ∉ p) :
    splitChar c p = [p] := by
  induction p with
  | nil => rfl
  | cons x xs ih =>
    have hx : ¬ x = c := fun hc => h (hc ▸ List.mem_cons_self x xs)
    have hxs : c ∉ xs := fun hc => h (List.mem_cons_of_mem x hc)
    simp only [splitChar, if_neg hx, ih hxs]
    rfl

theorem splitChar_append_sep (c : Char) (p s : List Char) (h : c ∉ p) :
    splitChar c (p ++ c :: s) = p :: splitChar c s := by
  induction p with
  | nil => simp [splitChar]
  | cons x xs ih =>
    have hx : ¬ x = c := fun hc => h (hc ▸ List.mem_cons_self x xs)
    have hxs : c ∉ xs := fun hc => h (List.mem_cons_of_mem x hc)
    rw [List.cons_append]
    rw [show splitChar c (x :: (xs ++ c :: s))
        = if x = c then [] :: splitChar c (xs ++ c :: s)
          else consHead x (splitChar c (xs ++ c :: s)) from rfl]
    rw [if_neg hx, ih hxs]
    rfl

theorem splitChar_joinChar (c : Char) (parts : List (List Char))
    (hne : parts ≠ []) (hc : ∀ p ∈ parts, c ∉ p) :
    splitChar c (joinChar c parts) = parts := by
  induction parts with
  | nil => exact absurd rfl hne
  | cons p rest ih =>
    cases rest with
    | nil =>
      simp only [joinChar]
      exact splitChar_no_sep c p (hc p (List.mem_cons_self p []))
    | cons q rest' =>
      have hjoin : joinChar c (p :: q :: rest')
          = p ++ c :: joinChar c (q :: rest') := rfl
      rw [hjoin, splitChar_append_sep c p _ (hc p (List.mem_cons_self p _)),
        ih (by simp) (fun r hr => hc r (List.mem_cons_of_mem p hr))]

theorem mem_joinChar_cons_cons (c : Char) (p q : List Char)
    (rest : List (List Char)) : c ∈ joinChar c (p :: q :: rest) := by
  have hjoin : joinChar c (p :: q :: rest)
      = p ++ c :: joinChar c (q :: rest) := rfl
  rw [hjoin]
  exact List.mem_append_right p (List.mem_cons_self c _)

theorem not_mem_joinChar (c c₂ : Char) (parts : List (List Char))
    (hcc : c ≠ c₂) (h : ∀ p ∈ parts, c ∉ p) : c ∉ joinChar c₂ parts := by
  induction parts with
  | nil => simp [joinChar]
  | cons p rest ih =>
    cases rest with
    | nil =>
      simp only [joinChar]
      exact h p (List.mem_cons_self p [])
    | cons q rest' =>
      have hjoin : joinChar c₂ (p :: q :: rest')
          = p ++ c₂ :: joinChar c₂ (q :: rest') := rfl
      rw [hjoin]
      intro hmem
      rcases List.mem_append.mp hmem with hmem | hmem
      · exact h p (List.mem_cons_self p _) hmem
      · rcases List.mem_cons.mp hmem with hmem | hmem
        · exact hcc hmem
        · exact ih (fun r hr => h r (List.mem_cons_of_mem p hr)) hmem

/-- Boolean lexicographic comparison of character lists, the order Python's
`sorted` uses on strings. -/
def lexLe : List Char → List Char → Bool
  | [], _ => true
  | _ :: _, [] => false
  | a :: as, b :: bs => if a = b then lexLe as bs else decide (a < b)

/-- Insertion into a sorted list of strings. -/
def insertSorted (x : List Char) : List (List Char) → List (List Char)
  | [] => [x]
  | y :: ys => if lexLe x y then x :: y :: ys else y :: insertSorted x ys

/-- Python `sorted` on a collection of strings (insertion sort; only the
membership of the result matters for the properties below). -/
def sortStrs : List (List Char) → List (List Char)
  | [] => []
  | x :: xs => insertSorted x (sortStrs xs)

theorem mem_insertSorted (a x : List Char) (l : List (List Char)) :
    a ∈ insertSorted x l ↔ a = x ∨ a ∈ l := by
  induction l with
  | nil => simp [insertSorted]
  | cons y ys ih =>
    simp only [insertSorted]
    by_cases h : lexLe x y
    · simp [h, List.mem_cons]
    · simp [h, List.mem_cons, ih]
      tauto

theorem mem_sortStrs (a : List Char) (l : List (List Char)) :
    a ∈ sortStrs l ↔ a ∈ l := by
  induction l with
  | nil => simp [sortStrs]
  | cons x xs ih =>
    simp [sortStrs, mem_insertSorted, ih, List.mem_cons]

theorem insertSorted_ne_nil (x : List Char) (l : List (List Char)) :
    insertSorted x l ≠ [] := by
  cases l with
  | nil => simp [insertSorted]
  | cons y ys =>
    simp only [insertSorted]
    by_cases h : lexLe x y <;> simp [h]

/-- `giftless.auth.jwt.Scope`: entity type, optional entity reference,
optional subscope, optional action set (Python `Optional[Set[str]]`,
modelled as an optional list whose membership is the set). -/
structure Scope where
  entityType : List Char
  entityRef : Option (List Char)
  subscope : Option (List Char)
  actions : Option (List (List Char))
deriving DecidableEq

/-- Python truthiness of an optional string: `None` and the empty string are
falsy. -/
def optTruthy : Option (List Char) → Bool
  | none => false
  | some s => ! s.isEmpty

/-- `Scope.__str__`.  The comparison `self.actions != '*'` of a set against
a string is always true in Python and is therefore dropped. -/
def scopeStr (s : Scope) : List Char :=
  let entityRef := if s.entityRef = some ['*'] then none else s.entityRef
  let subscobe := if s.subscope = some ['*'] then none else s.subscope
  let actions : Option (List Char) :=
    match s.actions with
    | some acts =>
      if acts.isEmpty then none else some (joinChar ',' (sortStrs acts))
    | none => none
  let parts : List (List Char) :=
    [s.entityType]
    ++ (if optTruthy entityRef then [entityRef.getD []]
        else if optTruthy subscobe || optTruthy actions then [['*']]
        else [])
    ++ (if optTruthy subscobe then
          [subscobe.getD []]
          ++ (if ! optTruthy actions then [['*']] else [])
        else [])
    ++ (if optTruthy actions then [actions.getD []] else [])
  joinChar ':' parts

/-- `Scope._parse_actions`: empty string yields the empty set, otherwise
split on commas (Python builds a `set`; the list's membership is the
set). -/
def parseActions (a : List Char) : List (List Char) :=
  if a.isEmpty then [] else splitChar ',' a

/-- `Scope.from_string`.  The `len(parts) < 1` `ValueError` branch is
unreachable because `split` always returns at least one part, so the
function is total. -/
def scopeFromString (s : List Char) : Scope :=
  let parts := splitChar ':' s
  let sc : Scope := ⟨parts.getD 0 [], none, none, none⟩
  let sc := if parts.length > 1 ∧ parts.getD 1 [] ≠ ['*']
    then { sc with entityRef := some (parts.getD 1 []) } else sc
  let sc := if parts.length = 3 ∧ parts.getD 2 [] ≠ ['*']
    then { sc with actions := some (parseActions (parts.getD 2 [])) } else sc
  if parts.length = 4 then
    let sc := if parts.getD 2 [] ≠ ['*']
      then { sc with subscope := some (parts.getD 2 []) } else sc
    if parts.getD 3 [] ≠ ['*']
      then { sc with actions := some (parseActions (parts.getD 3 [])) }
      else sc
  else sc

/-- `JWTAuthenticator._parse_scope_permissions`: map the scope's actions
through `{read ↦ {READ, READ_META}, write ↦ {WRITE}, verify ↦
{READ_META}}` (missing or empty actions grant everything), then intersect
with `{READ_META}` when the subscope is `metadata`/`meta`. -/
def parseScopePermissions (sc : Scope) : List Permission :=
  let permissionsMap : List (List Char × List Permission) :=
    [("read".data, [.READ, .READ_META]),
     ("write".data, [.WRITE]),
     ("verify".data, [.READ_META])]
  let permissions :=
    match sc.actions with
    | some acts =>
      if ! acts.isEmpty then
        acts.foldl
          (fun acc a => acc.union ((dlookup permissionsMap a).getD [])) []
      else Permission.allPerms
    | none => Permission.allPerms
  if sc.subscope = some ("metadata".data) ∨ sc.subscope = some ("meta".data)
  then permissions.filter (fun p => decide (p = Permission.READ_META))
  else permissions

/-- Arguments `JWTAuthenticator._parse_scope` produces for
`Identity.allow`. -/
structure AllowArgs where
  organization : Option (List Char)
  repo : Option (List Char)
  permissions : List Permission
  oid : Option (List Char)

/-- `JWTAuthenticator._parse_scope`: `none` models the empty dict returned
for a non-`obj` entity type (no grant); otherwise the entity reference is
split on `/` (max 3 pieces, `*` pieces becoming wildcards) and the
permissions are extracted from the scope. -/
def parseScopeStr (s : List Char) : Option AllowArgs :=
  let scope := scopeFromString s
  if scope.entityType ≠ "obj".data then none
  else
    let triple :
        Option (List Char) × Option (List Char) × Option (List Char) :=
      match scope.entityRef with
      | none => (none, none, none)
      | some ref =>
        let idParts := (splitCharMax '/' 2 ref).map
          (fun p => if p = ['*'] then none else some p)
        match idParts with
        | [a, b, c] => (a, b, c)
        | [a, b] => (a, b, none)
        | [a] => (none, none, a)
        | _ => (none, none, none)
    some ⟨triple.1, triple.2.1, parseScopePermissions scope, triple.2.2⟩

/-- C4: for every scope string splitting on `:` into five or more segments
with first segment `obj`, `Scope.from_string` leaves both `subscope` and
`actions` as `None` (the assignments are guarded by `len(parts) == 3` and
`len(parts) == 4`), so the JWT authenticator's permission parsing grants
the full permission set `{READ, READ_META, WRITE}` for the referenced
entity rather than the restricted actions named in the string. -/
theorem C4_long_scope_grants_all (s : List Char)
    (h5 : 5 ≤ (splitChar ':' s).length)
    (hobj : (splitChar ':' s).getD 0 [] = "obj".data) :
    (scopeFromString s).subscope = none
    ∧ (scopeFromString s).actions = none
    ∧ parseScopePermissions (scopeFromString s) = Permission.allPerms
    ∧ ∃ args, parseScopeStr s = some args
        ∧ args.permissions = Permission.allPerms := by
  have h3 : ¬ (splitChar ':' s).length = 3 := by omega
  have h4 : ¬ (splitChar ':' s).length = 4 := by omega
  have hfields : (scopeFromString s).subscope = none
      ∧ (scopeFromString s).actions = none
      ∧ (scopeFromString s).entityType = (splitChar ':' s).getD 0 [] := by
    unfold scopeFromString
    by_cases h1 : ((splitChar ':' s).length > 1
        ∧ (splitChar ':' s).getD 1 [] ≠ ['*'])
    all_goals simp [h1, h3, h4]
    all_goals (repeat' split <;> simp)
  have hperm : parseScopePermissions (scopeFromString s)
      = Permission.allPerms := by
    unfold parseScopePermissions
    rw [hfields.2.1, hfields.1]
    simp
  have het : (scopeFromString s).entityType = "obj".data :=
    hfields.2.2.trans hobj
  refine ⟨hfields.1, hfields.2.1, hperm, ?_⟩
  unfold parseScopeStr
  rw [if_neg (fun hne => hne het)]
  exact ⟨_, rfl, hperm⟩

/-- C4 witness: the five-segment scope string
`obj:org/repo/oid:meta:verify:x` grants the full permission set. -/
theorem C4_witness :
    (scopeFromString ("obj:org/repo/oid:meta:verify:x").data).subscope = none
    ∧ (scopeFromString ("obj:org/repo/oid:meta:verify:x").data).actions
        = none
    ∧ parseScopePermissions
        (scopeFromString ("obj:org/repo/oid:meta:verify:x").data)
        = Permission.allPerms
    ∧ ∃ args, parseScopeStr ("obj:org/repo/oid:meta:verify:x").data
          = some args
        ∧ args.permissions = Permission.allPerms :=
  C4_long_scope_grants_all _ (by decide) (by decide)

theorem sortStrs_ne_nil (acts : List (List Char)) (hne : acts ≠ []) :
    sortStrs acts ≠ [] := by
  cases acts with
  | nil => exact absurd rfl hne
  | cons x xs =>
    simp only [sortStrs]
    exact insertSorted_ne_nil x _

theorem joined_actions_spec (acts : List (List Char)) (hne : acts ≠ [])
    (hwf : ∀ a ∈ acts, a ≠ [] ∧ a ≠ ['*'] ∧ ':' ∉ a ∧ ',' ∉ a) :
    joinChar ',' (sortStrs acts) ≠ []
    ∧ joinChar ',' (sortStrs acts) ≠ ['*']
    ∧ ':' ∉ joinChar ',' (sortStrs acts)
    ∧ parseActions (joinChar ',' (sortStrs acts)) = sortStrs acts := by
  have hsne : sortStrs acts ≠ [] := sortStrs_ne_nil acts hne
  have hwf' : ∀ a ∈ sortStrs acts,
      a ≠ [] ∧ a ≠ ['*'] ∧ ':' ∉ a ∧ ',' ∉ a :=
    fun a ha => hwf a ((mem_sortStrs a acts).mp ha)
  have hsplit : splitChar ',' (joinChar ',' (sortStrs acts))
      = sortStrs acts :=
    splitChar_joinChar ',' _ hsne (fun p hp => (hwf' p hp).2.2.2)
  have hcolon : ':' ∉ joinChar ',' (sortStrs acts) :=
    not_mem_joinChar ':' ',' _ (by decide)
      (fun p hp => (hwf' p hp).2.2.1)
  rcases hs : sortStrs acts with _ | ⟨a, rest⟩
  · exact absurd hs hsne
  · rw [hs] at hsplit hcolon
    cases rest with
    | nil =>
      have hj : joinChar ',' [a] = a := rfl
      have hmem : a ∈ sortStrs acts := by
        rw [hs]
        exact List.mem_cons_self a []
      obtain ⟨hane, hastar, hacol, hacom⟩ :=
        hwf a ((mem_sortStrs a acts).mp hmem)
      rw [hj] at hsplit ⊢
      refine ⟨hane, hastar, hcolon, ?_⟩
      unfold parseActions
      rw [if_neg (by simpa using hane)]
      exact hsplit
    | cons b rest' =>
      have hcomma : ',' ∈ joinChar ',' (a :: b :: rest') :=
        mem_joinChar_cons_cons ',' a b rest'
      have hjne : joinChar ',' (a :: b :: rest') ≠ [] := by
        intro h
        rw [h] at hcomma
        exact absurd hcomma (by simp)
      have hjstar : joinChar ',' (a :: b :: rest') ≠ ['*'] := by
        intro h
        rw [h] at hcomma
        exact absurd hcomma (by decide)
      refine ⟨hjne, hjstar, hcolon, ?_⟩
      unfold parseActions
      rw [if_neg (by simpa using hjne)]
      exact hsplit

theorem scopeFromString_parts1 (s0 a : List Char)
    (h : splitChar ':' s0 = [a]) :
    scopeFromString s0 = ⟨a, none, none, none⟩ := by
  unfold scopeFromString
  simp [h]

theorem scopeFromString_parts2 (s0 a b : List Char)
    (h : splitChar ':' s0 = [a, b]) :
    scopeFromString s0
      = ⟨a, if b = ['*'] then none else some b, none, none⟩ := by
  unfold scopeFromString
  by_cases hb : b = ['*'] <;> simp [h, hb]

theorem scopeFromString_parts3 (s0 a b c : List Char)
    (h : splitChar ':' s0 = [a, b, c]) :
    scopeFromString s0
      = ⟨a, if b = ['*'] then none else some b, none,
          if c = ['*'] then none else some (parseActions c)⟩ := by
  unfold scopeFromString
  by_cases hb : b = ['*'] <;> by_cases hc : c = ['*'] <;>
    simp [h, hb, hc]

theorem scopeFromString_parts4 (s0 a b c d : List Char)
    (h : splitChar ':' s0 = [a, b, c, d]) :
    scopeFromString s0
      = ⟨a, if b = ['*'] then none else some b,
          if c = ['*'] then none else some c,
          if d = ['*'] then none else some (parseActions d)⟩ := by
  unfold scopeFromString
  by_cases hb : b = ['*'] <;> by_cases hc : c = ['*'] <;>
    by_cases hd : d = ['*'] <;> simp [h, hb, hc, hd]

/-- C10 counterexample: a scope carrying a present-but-empty action set
prints without an actions segment, so parsing the string back yields an
*absent* action set; under the claim's canonicalization (which identifies
only `'*'` with `None` on entity_ref and subscope) the two scopes differ. -/
theorem C10_counterexample :
    scopeFromString (scopeStr ⟨"obj".data, none, none, some []⟩)
      = ⟨"obj".data, none, none, none⟩
    ∧ (⟨"obj".data, none, none, some []⟩ : Scope)
        ≠ ⟨"obj".data, none, none, none⟩ := by
  refine ⟨rfl, ?_⟩
  decide

/-- C10 (amended): for every scope whose components are well formed (entity
type free of `:`; entity reference and subscope either absent, `'*'`, or a
non-empty `:`-free string; actions a set of non-empty strings other than
`'*'` containing neither `:` nor `,`), string conversion followed by
`Scope.from_string` restores the scope up to canonicalization: entity_ref
`'*'` and `None` are identified, subscope `'*'` and `None` are identified,
and an action set that is absent *or empty* round-trips to an absent
action set; a present non-empty action set round-trips to an action set
with exactly the same members. -/
theorem C10_scope_string_roundtrip (s : Scope)
    (het : ':' ∉ s.entityType)
    (her : s.entityRef = none ∨ s.entityRef = some ['*']
      ∨ ∃ r, s.entityRef = some r ∧ r ≠ [] ∧ r ≠ ['*'] ∧ ':' ∉ r)
    (hsb : s.subscope = none ∨ s.subscope = some ['*']
      ∨ ∃ b, s.subscope = some b ∧ b ≠ [] ∧ b ≠ ['*'] ∧ ':' ∉ b)
    (hac : ∀ l, s.actions = some l → ∀ a ∈ l,
      a ≠ [] ∧ a ≠ ['*'] ∧ ':' ∉ a ∧ ',' ∉ a) :
    (scopeFromString (scopeStr s)).entityType = s.entityType
    ∧ (scopeFromString (scopeStr s)).entityRef
        = (if s.entityRef = some ['*'] then none else s.entityRef)
    ∧ (scopeFromString (scopeStr s)).subscope
        = (if s.subscope = some ['*'] then none else s.subscope)
    ∧ ((scopeFromString (scopeStr s)).actions = none
        ↔ (s.actions = none ∨ s.actions = some []))
    ∧ (∀ pl, (scopeFromString (scopeStr s)).actions = some pl →
        ∃ cl, s.actions = some cl ∧ ∀ a, a ∈ pl ↔ a ∈ cl) := by
  obtain ⟨erC, hErEq, hErSpec⟩ : ∃ erC,
      (if s.entityRef = some ['*'] then none else s.entityRef) = erC
      ∧ (erC = none
        ∨ ∃ r, erC = some r ∧ r ≠ [] ∧ r ≠ ['*'] ∧ ':' ∉ r) := by
    rcases her with h | h | ⟨r, h, h1, h2, h3⟩
    · exact ⟨none, by simp [h], Or.inl rfl⟩
    · exact ⟨none, by simp [h], Or.inl rfl⟩
    · refine ⟨some r, ?_, Or.inr ⟨r, rfl, h1, h2, h3⟩⟩
      rw [h, if_neg (by simpa using h2)]
  obtain ⟨sbC, hSbEq, hSbSpec⟩ : ∃ sbC,
      (if s.subscope = some ['*'] then none else s.subscope) = sbC
      ∧ (sbC = none
        ∨ ∃ b, sbC = some b ∧ b ≠ [] ∧ b ≠ ['*'] ∧ ':' ∉ b) := by
    rcases hsb with h | h | ⟨b, h, h1, h2, h3⟩
    · exact ⟨none, by simp [h], Or.inl rfl⟩
    · exact ⟨none, by simp [h], Or.inl rfl⟩
    · refine ⟨some b, ?_, Or.inr ⟨b, rfl, h1, h2, h3⟩⟩
      rw [h, if_neg (by simpa using h2)]
  obtain ⟨acC, hAcEq, hAcSpec⟩ : ∃ acC,
      (match s.actions with
        | some acts =>
          if acts.isEmpty then none
          else some (joinChar ',' (sortStrs acts))
        | none => none) = acC
      ∧ ((acC = none ∧ (s.actions = none ∨ s.actions = some []))
        ∨ ∃ acts, s.actions = some acts ∧ acts ≠ []
            ∧ acC = some (joinChar ',' (sortStrs acts))) := by
    rcases hA : s.actions with _ | acts
    · exact ⟨none, by simp [hA], Or.inl ⟨rfl, Or.inl (by simp [hA])⟩⟩
    · by_cases hae : acts = []
      · subst hae
        exact ⟨none, by simp [hA], Or.inl ⟨rfl, Or.inr (by simp [hA])⟩⟩
      · have hie : acts.isEmpty = false := by simpa using hae
        refine ⟨some (joinChar ',' (sortStrs acts)), ?_,
          Or.inr ⟨acts, by simp [hA], hae, rfl⟩⟩
        simp [hA, hie]
  have hstr : scopeStr s = joinChar ':'
      ([s.entityType]
        ++ (if optTruthy erC then [erC.getD []]
            else if optTruthy sbC || optTruthy acC then [['*']]
            else [])
        ++ (if optTruthy sbC then
              [sbC.getD []] ++ (if ! optTruthy acC then [['*']] else [])
            else [])
        ++ (if optTruthy acC then [acC.getD []] else [])) := by
    simp only [scopeStr, hErEq, hSbEq, hAcEq]
  rcases hAcSpec with ⟨hacC, hacsrc⟩ | ⟨acts, hasrc, hane, hacC⟩
  · -- actions absent or empty: no actions segment, parse restores `none`
    subst hacC
    have hNoActs : ∀ (res : Scope), res.actions = none →
        ((res.actions = none ↔ (s.actions = none ∨ s.actions = some []))
          ∧ ∀ pl, res.actions = some pl →
              ∃ cl, s.actions = some cl ∧ ∀ a, a ∈ pl ↔ a ∈ cl) := by
      intro res hres
      refine ⟨⟨fun _ => hacsrc, fun _ => hres⟩, ?_⟩
      intro pl hpl
      rw [hres] at hpl
      exact absurd hpl (by simp)
    rcases hErSpec with hErC | ⟨r, hErC, hrne, hrstar, hrcol⟩ <;> subst hErC
    · rcases hSbSpec with hSbC | ⟨b, hSbC, hbne, hbstar, hbcol⟩ <;>
        subst hSbC
      · -- no segments beyond the entity type
        have hp : scopeStr s = joinChar ':' [s.entityType] := by
          rw [hstr]
          simp [optTruthy]
        have hsp : splitChar ':' (scopeStr s) = [s.entityType] := by
          rw [hp]
          refine splitChar_joinChar ':' _ (by simp) ?_
          intro p hp0
          simp only [List.mem_cons, List.not_mem_nil, or_false] at hp0
          subst hp0
          exact het
        rw [scopeFromString_parts1 _ _ hsp]
        exact ⟨rfl, hErEq.symm, hSbEq.symm, (hNoActs _ rfl).1,
          (hNoActs _ rfl).2⟩
      · -- subscope only: `etype:*:sub:*`
        have hbt : optTruthy (some b) = true := by
          simp [optTruthy]
          simpa using hbne
        have hp : scopeStr s
            = joinChar ':' [s.entityType, ['*'], b, ['*']] := by
          rw [hstr]
          simp [optTruthy, hbne]
        have hsp : splitChar ':' (scopeStr s)
            = [s.entityType, ['*'], b, ['*']] := by
          rw [hp]
          refine splitChar_joinChar ':' _ (by simp) ?_
          intro p hp0
          simp only [List.mem_cons, List.not_mem_nil, or_false] at hp0
          rcases hp0 with rfl | rfl | rfl | rfl
          · exact het
          · decide
          · exact hbcol
          · decide
        have h4 := scopeFromString_parts4 _ _ _ _ _ hsp
        rw [if_pos rfl, if_neg hbstar, if_pos rfl] at h4
        rw [h4]
        exact ⟨rfl, hErEq.symm, hSbEq.symm, (hNoActs _ rfl).1,
          (hNoActs _ rfl).2⟩
    · have hrt : optTruthy (some r) = true := by
        simp [optTruthy]
        simpa using hrne
      rcases hSbSpec with hSbC | ⟨b, hSbC, hbne, hbstar, hbcol⟩ <;>
        subst hSbC
      · -- entity ref only: `etype:ref`
        have hp : scopeStr s = joinChar ':' [s.entityType, r] := by
          rw [hstr]
          simp [optTruthy, hrne]
        have hsp : splitChar ':' (scopeStr s) = [s.entityType, r] := by
          rw [hp]
          refine splitChar_joinChar ':' _ (by simp) ?_
          intro p hp0
          simp only [List.mem_cons, List.not_mem_nil, or_false] at hp0
          rcases hp0 with rfl | rfl
          · exact het
          · exact hrcol
        have h4 := scopeFromString_parts2 _ _ _ hsp
        rw [if_neg hrstar] at h4
        rw [h4]
        exact ⟨rfl, hErEq.symm, hSbEq.symm, (hNoActs _ rfl).1,
          (hNoActs _ rfl).2⟩
      · -- entity ref and subscope: `etype:ref:sub:*`
        have hbt : optTruthy (some b) = true := by
          simp [optTruthy]
          simpa using hbne
        have hp : scopeStr s
            = joinChar ':' [s.entityType, r, b, ['*']] := by
          rw [hstr]
          simp [optTruthy, hrne, hbne]
        have hsp : splitChar ':' (scopeStr s)
            = [s.entityType, r, b, ['*']] := by
          rw [hp]
          refine splitChar_joinChar ':' _ (by simp) ?_
          intro p hp0
          simp only [List.mem_cons, List.not_mem_nil, or_false] at hp0
          rcases hp0 with rfl | rfl | rfl | rfl
          · exact het
          · exact hrcol
          · exact hbcol
          · decide
        have h4 := scopeFromString_parts4 _ _ _ _ _ hsp
        rw [if_neg hrstar, if_neg hbstar, if_pos rfl] at h4
        rw [h4]
        exact ⟨rfl, hErEq.symm, hSbEq.symm, (hNoActs _ rfl).1,
          (hNoActs _ rfl).2⟩
  · -- actions present and non-empty
    obtain ⟨hjne, hjstar, hjcol, hjparse⟩ :=
      joined_actions_spec acts hane (hac acts hasrc)
    subst hacC
    have hjt : optTruthy (some (joinChar ',' (sortStrs acts))) = true := by
      simp [optTruthy]
      simpa using hjne
    have hActsConc : ∀ (res : Scope),
        res.actions = some (sortStrs acts) →
        ((res.actions = none ↔ (s.actions = none ∨ s.actions = some []))
          ∧ ∀ pl, res.actions = some pl →
              ∃ cl, s.actions = some cl ∧ ∀ a, a ∈ pl ↔ a ∈ cl) := by
      intro res hres
      constructor
      · rw [hres]
        constructor
        · intro h
          exact absurd h (by simp)
        · rintro (h | h)
          · exact absurd (hasrc.symm.trans h) (by simp)
          · rw [hasrc] at h
            injection h with h'
            exact absurd h' hane
      · intro pl hpl
        rw [hres] at hpl
        injection hpl with h'
        refine ⟨acts, hasrc, ?_⟩
        intro a
        rw [← h']
        exact mem_sortStrs a acts
    rcases hErSpec with hErC | ⟨r, hErC, hrne, hrstar, hrcol⟩ <;> subst hErC
    · rcases hSbSpec with hSbC | ⟨b, hSbC, hbne, hbstar, hbcol⟩ <;>
        subst hSbC
      · -- actions only: `etype:*:actions`
        have hp : scopeStr s = joinChar ':'
            [s.entityType, ['*'], joinChar ',' (sortStrs acts)] := by
          rw [hstr]
          simp [optTruthy, hjne]
        have hsp : splitChar ':' (scopeStr s)
            = [s.entityType, ['*'], joinChar ',' (sortStrs acts)] := by
          rw [hp]
          refine splitChar_joinChar ':' _ (by simp) ?_
          intro p hp0
          simp only [List.mem_cons, List.not_mem_nil, or_false] at hp0
          rcases hp0 with rfl | rfl | rfl
          · exact het
          · decide
          · exact hjcol
        have h4 := scopeFromString_parts3 _ _ _ _ hsp
        rw [if_pos rfl, if_neg hjstar, hjparse] at h4
        rw [h4]
        exact ⟨rfl, hErEq.symm, hSbEq.symm, (hActsConc _ rfl).1,
          (hActsConc _ rfl).2⟩
      · -- subscope and actions: `etype:*:sub:actions`
        have hbt : optTruthy (some b) = true := by
          simp [optTruthy]
          simpa using hbne
        have hp : scopeStr s = joinChar ':'
            [s.entityType, ['*'], b, joinChar ',' (sortStrs acts)] := by
          rw [hstr]
          simp [optTruthy, hbne, hjne]
        have hsp : splitChar ':' (scopeStr s)
            = [s.entityType, ['*'], b, joinChar ',' (sortStrs acts)] := by
          rw [hp]
          refine splitChar_joinChar ':' _ (by simp) ?_
          intro p hp0
          simp only [List.mem_cons, List.not_mem_nil, or_false] at hp0
          rcases hp0 with rfl | rfl | rfl | rfl
          · exact het
          · decide
          · exact hbcol
          · exact hjcol
        have h4 := scopeFromString_parts4 _ _ _ _ _ hsp
        rw [if_pos rfl, if_neg hbstar, if_neg hjstar, hjparse] at h4
        rw [h4]
        exact ⟨rfl, hErEq.symm, hSbEq.symm, (hActsConc _ rfl).1,
          (hActsConc _ rfl).2⟩
    · have hrt : optTruthy (some r) = true := by
        simp [optTruthy]
        simpa using hrne
      rcases hSbSpec with hSbC | ⟨b, hSbC, hbne, hbstar, hbcol⟩ <;>
        subst hSbC
      · -- entity ref and actions: `etype:ref:actions`
        have hp : scopeStr s = joinChar ':'
            [s.entityType, r, joinChar ',' (sortStrs acts)] := by
          rw [hstr]
          simp [optTruthy, hrne, hjne]
        have hsp : splitChar ':' (scopeStr s)
            = [s.entityType, r, joinChar ',' (sortStrs acts)] := by
          rw [hp]
          refine splitChar_joinChar ':' _ (by simp) ?_
          intro p hp0
          simp only [List.mem_cons, List.not_mem_nil, or_false] at hp0
          rcases hp0 with rfl | rfl | rfl
          · exact het
          · exact hrcol
          · exact hjcol
        have h4 := scopeFromString_parts3 _ _ _ _ hsp
        rw [if_neg hrstar, if_neg hjstar, hjparse] at h4
        rw [h4]
        exact ⟨rfl, hErEq.symm, hSbEq.symm, (hActsConc _ rfl).1,
          (hActsConc _ rfl).2⟩
      · -- all four segments: `etype:ref:sub:actions`
        have hbt : optTruthy (some b) = true := by
          simp [optTruthy]
          simpa using hbne
        have hp : scopeStr s = joinChar ':'
            [s.entityType, r, b, joinChar ',' (sortStrs acts)] := by
          rw [hstr]
          simp [optTruthy, hrne, hbne, hjne]
        have hsp : splitChar ':' (scopeStr s)
            = [s.entityType, r, b, joinChar ',' (sortStrs acts)] := by
          rw [hp]
          refine splitChar_joinChar ':' _ (by simp) ?_
          intro p hp0
          simp only [List.mem_cons, List.not_mem_nil, or_false] at hp0
          rcases hp0 with rfl | rfl | rfl | rfl
          · exact het
          · exact hrcol
          · exact hbcol
          · exact hjcol
        have h4 := scopeFromString_parts4 _ _ _ _ _ hsp
        rw [if_neg hrstar, if_neg hbstar, if_neg hjstar, hjparse] at h4
        rw [h4]
        exact ⟨rfl, hErEq.symm, hSbEq.symm, (hActsConc _ rfl).1,
          (hActsConc _ rfl).2⟩

/-- A representative well-formed scope used as a witness input. -/
def c10Scope : Scope :=
  ⟨"obj".data, some ("myorg/myrepo".data), some ("meta".data),
    some ["read".data, "write".data]⟩

/-- C10 witness: the round trip at a concrete four-component scope. -/
theorem C10_witness :
    (scopeFromString (scopeStr c10Scope)).entityType = c10Scope.entityType
    ∧ (scopeFromString (scopeStr c10Scope)).entityRef
        = (if c10Scope.entityRef = some ['*'] then none
          else c10Scope.entityRef)
    ∧ (scopeFromString (scopeStr c10Scope)).subscope
        = (if c10Scope.subscope = some ['*'] then none
          else c10Scope.subscope)
    ∧ ((scopeFromString (scopeStr c10Scope)).actions = none
        ↔ (c10Scope.actions = none ∨ c10Scope.actions = some []))
    ∧ (∀ pl, (scopeFromString (scopeStr c10Scope)).actions = some pl →
        ∃ cl, c10Scope.actions = some cl ∧ ∀ a, a ∈ pl ↔ a ∈ cl) :=
  C10_scope_string_roundtrip c10Scope (by decide)
    (Or.inr (Or.inr ⟨"myorg/myrepo".data, rfl, by decide, by decide,
      by decide⟩))
    (Or.inr (Or.inr ⟨"meta".data, rfl, by decide, by decide, by decide⟩))
    (by
      intro l hl
      injection hl with h
      subst h
      decide)

/-- An Azure upload block (`Block` named tuple): id, start offset, size. -/
structure Block where
  id : Nat
  start : Nat
  size : Nat
deriving DecidableEq

/-- `_calculate_blocks(file_size, part_size)`: full blocks of `part_size`
followed by a last smaller block when `file_size % part_size` is non-zero.
Sizes are natural numbers, matching the claims' domain `size ≥ 0`,
`part_size > 0`. -/
def calculateBlocks (fileSize partSize : Nat) : List Block :=
  let fullBlocks := fileSize / partSize
  let lastBlockSize := fileSize % partSize
  let blocks := (List.range fullBlocks).map
    (fun i => ⟨i, i * partSize, partSize⟩)
  if lastBlockSize ≠ 0 then
    blocks ++ [⟨fullBlocks, fullBlocks * partSize, lastBlockSize⟩]
  else blocks

theorem calculateBlocks_map_id (n p : Nat) :
    (calculateBlocks n p).map Block.id
      = List.range (calculateBlocks n p).length := by
  have hid : (Block.id ∘ fun i => (⟨i, i * p, p⟩ : Block)) = id := rfl
  unfold calculateBlocks
  by_cases h : n % p ≠ 0 <;>
    simp [h, List.map_map, hid, List.range_succ]

theorem calculateBlocks_start (n p : Nat) :
    ∀ b ∈ calculateBlocks n p, b.start = b.id * p := by
  intro b hb
  unfold calculateBlocks at hb
  by_cases h : n % p ≠ 0 <;> simp [h] at hb
  · rcases hb with ⟨i, _, rfl⟩ | rfl <;> rfl
  · obtain ⟨i, _, rfl⟩ := hb
    rfl

theorem calculateBlocks_sizes (n p : Nat) :
    (calculateBlocks n p).map Block.size
      = List.replicate (n / p) p
        ++ (if n % p ≠ 0 then [n % p] else []) := by
  have hsz : (Block.size ∘ fun i => (⟨i, i * p, p⟩ : Block))
      = fun _ => p := rfl
  unfold calculateBlocks
  by_cases h : n % p ≠ 0 <;>
    simp [h, List.map_map, hsz, List.map_const']

theorem calculateBlocks_sum (n p : Nat) :
    ((calculateBlocks n p).map Block.size).sum = n := by
  rw [calculateBlocks_sizes]
  by_cases h : n % p ≠ 0
  · rw [if_pos h, List.sum_append, List.sum_replicate, List.sum_cons,
      List.sum_nil, smul_eq_mul, Nat.add_zero, Nat.mul_comm]
    exact Nat.div_add_mod n p
  · have h0 : n % p = 0 := by omega
    rw [if_neg h, List.append_nil, List.sum_replicate, smul_eq_mul]
    exact Nat.div_mul_cancel (Nat.dvd_of_mod_eq_zero h0)

/-- C9: `_calculate_blocks(file_size, part_size)` returns blocks with
consecutive ids `0, 1, …`, start offsets `id * part_size`, every block of
size `part_size` except a possible final block of size
`file_size % part_size`, sizes summing to `file_size`; including the four
documented examples. -/
theorem C9_calculate_blocks (fileSize partSize : Nat)
    (_hp : 0 < partSize) :
    ((calculateBlocks fileSize partSize).map Block.id
        = List.range (calculateBlocks fileSize partSize).length)
    ∧ (∀ b ∈ calculateBlocks fileSize partSize, b.start = b.id * partSize)
    ∧ ((calculateBlocks fileSize partSize).map Block.size
        = List.replicate (fileSize / partSize) partSize
          ++ (if fileSize % partSize ≠ 0 then [fileSize % partSize]
              else []))
    ∧ ((calculateBlocks fileSize partSize).map Block.size).sum = fileSize
    ∧ calculateBlocks 30 10 = [⟨0, 0, 10⟩, ⟨1, 10, 10⟩, ⟨2, 20, 10⟩]
    ∧ calculateBlocks 28 10 = [⟨0, 0, 10⟩, ⟨1, 10, 10⟩, ⟨2, 20, 8⟩]
    ∧ calculateBlocks 7 10 = [⟨0, 0, 7⟩]
    ∧ calculateBlocks 0 10 = [] :=
  ⟨calculateBlocks_map_id fileSize partSize,
    calculateBlocks_start fileSize partSize,
    calculateBlocks_sizes fileSize partSize,
    calculateBlocks_sum fileSize partSize,
    by decide, by decide, by decide, by decide⟩

/-- C9 witness: the block sizes of `_calculate_blocks(30, 10)` sum to 30. -/
theorem C9_witness : ((calculateBlocks 30 10).map Block.size).sum = 30 :=
  (C9_calculate_blocks 30 10 (by decide)).2.2.2.1

/-- The base64 alphabet. -/
def b64Alphabet : List Char :=
  ("ABCDEFGHIJKLMNOPQRSTUVWXYZabcdefghijklmnopqrstuvwxyz0123456789+/").data

/-- Character for a 6-bit group (the `'='` default is unreachable: encoding
only indexes below 64). -/
def b64Char (i : Nat) : Char := b64Alphabet.getD i '='

/-- Index of a character in the base64 alphabet. -/
def b64DecChar (c : Char) : Nat := List.indexOf c b64Alphabet

/-- Standard base64 of a byte list (`base64.b64encode`). -/
def b64Encode : List Nat → List Char
  | [] => []
  | [a] => [b64Char (a / 4), b64Char (a % 4 * 16), '=', '=']
  | [a, b] =>
    [b64Char (a / 4), b64Char (a % 4 * 16 + b / 16), b64Char (b % 16 * 4),
      '=']
  | a :: b :: c :: rest =>
    [b64Char (a / 4), b64Char (a % 4 * 16 + b / 16),
      b64Char (b % 16 * 4 + c / 64), b64Char (c % 64)]
    ++ b64Encode rest

/-- Base64 decoding, the left inverse used to state the claim. -/
def b64Decode : List Char → List Nat
  | c1 :: c2 :: c3 :: c4 :: rest =>
    if c3 = '=' then [b64DecChar c1 * 4 + b64DecChar c2 / 16]
    else if c4 = '=' then
      [b64DecChar c1 * 4 + b64DecChar c2 / 16,
        b64DecChar c2 % 16 * 16 + b64DecChar c3 / 4]
    else
      [b64DecChar c1 * 4 + b64DecChar c2 / 16,
        b64DecChar c2 % 16 * 16 + b64DecChar c3 / 4,
        b64DecChar c3 % 4 * 64 + b64DecChar c4]
      ++ b64Decode rest
  | _ => []

theorem b64DecChar_b64Char : ∀ i < 64, b64DecChar (b64Char i) = i := by
  decide

theorem b64Char_ne_pad : ∀ i < 64, b64Char i ≠ '=' := by decide

theorem b64Char_ne_xml : ∀ i < 64,
    b64Char i ≠ '&' ∧ b64Char i ≠ '<' ∧ b64Char i ≠ '>' := by decide

theorem b64_roundtrip_aux : ∀ (n : Nat) (bytes : List Nat),
    bytes.length ≤ n → (∀ x ∈ bytes, x < 256) →
    b64Decode (b64Encode bytes) = bytes := by
  intro n
  induction n with
  | zero =>
    intro bytes h1 _
    have hnil : bytes = [] := List.length_eq_zero.mp (Nat.le_zero.mp h1)
    subst hnil
    rfl
  | succ n ih =>
    intro bytes h1 h2
    rcases bytes with _ | ⟨a, _ | ⟨b, _ | ⟨c, rest⟩⟩⟩
    · rfl
    · have ha : a < 256 := h2 a (by simp)
      have e1 := b64DecChar_b64Char (a / 4) (by omega)
      have e2 := b64DecChar_b64Char (a % 4 * 16) (by omega)
      simp [b64Encode, b64Decode, e1, e2]
      omega
    · have ha : a < 256 := h2 a (by simp)
      have hb : b < 256 := h2 b (by simp)
      have e1 := b64DecChar_b64Char (a / 4) (by omega)
      have e2 := b64DecChar_b64Char (a % 4 * 16 + b / 16) (by omega)
      have e3 := b64DecChar_b64Char (b % 16 * 4) (by omega)
      have n3 := b64Char_ne_pad (b % 16 * 4) (by omega)
      simp [b64Encode, b64Decode, n3, e1, e2, e3]
      constructor <;> omega
    · have ha : a < 256 := h2 a (by simp)
      have hb : b < 256 := h2 b (by simp)
      have hc : c < 256 := h2 c (by simp)
      have e1 := b64DecChar_b64Char (a / 4) (by omega)
      have e2 := b64DecChar_b64Char (a % 4 * 16 + b / 16) (by omega)
      have e3 := b64DecChar_b64Char (b % 16 * 4 + c / 64) (by omega)
      have e4 := b64DecChar_b64Char (c % 64) (by omega)
      have n3 := b64Char_ne_pad (b % 16 * 4 + c / 64) (by omega)
      have n4 := b64Char_ne_pad (c % 64) (by omega)
      have hrest : b64Decode (b64Encode rest) = rest := by
        refine ih rest ?_ (fun x hx => h2 x (by simp [hx]))
        simp at h1
        omega
      simp [b64Encode, b64Decode, n3, n4, e1, e2, e3, e4, hrest]
      refine ⟨by omega, by omega, by omega⟩

theorem b64Decode_b64Encode (bytes : List Nat)
    (h : ∀ x ∈ bytes, x < 256) : b64Decode (b64Encode bytes) = bytes :=
  b64_roundtrip_aux bytes.length bytes le_rfl h

theorem b64Encode_chars_aux : ∀ (n : Nat) (bytes : List Nat),
    bytes.length ≤ n → (∀ x ∈ bytes, x < 256) →
    ∀ ch ∈ b64Encode bytes, ch ≠ '&' ∧ ch ≠ '<' ∧ ch ≠ '>' := by
  intro n
  induction n with
  | zero =>
    intro bytes h1 _
    have hnil : bytes = [] := List.length_eq_zero.mp (Nat.le_zero.mp h1)
    subst hnil
    intro ch hch
    exact absurd hch (by simp [b64Encode])
  | succ n ih =>
    intro bytes h1 h2 ch hch
    rcases bytes with _ | ⟨a, _ | ⟨b, _ | ⟨c, rest⟩⟩⟩
    · exact absurd hch (by simp [b64Encode])
    · have ha : a < 256 := h2 a (by simp)
      simp [b64Encode] at hch
      rcases hch with rfl | rfl | rfl
      · exact b64Char_ne_xml (a / 4) (by omega)
      · exact b64Char_ne_xml (a % 4 * 16) (by omega)
      · decide
    · have ha : a < 256 := h2 a (by simp)
      have hb : b < 256 := h2 b (by simp)
      simp [b64Encode] at hch
      rcases hch with rfl | rfl | rfl | rfl
      · exact b64Char_ne_xml (a / 4) (by omega)
      · exact b64Char_ne_xml (a % 4 * 16 + b / 16) (by omega)
      · exact b64Char_ne_xml (b % 16 * 4) (by omega)
      · decide
    · have ha : a < 256 := h2 a (by simp)
      have hb : b < 256 := h2 b (by simp)
      have hc : c < 256 := h2 c (by simp)
      simp [b64Encode] at hch
      rcases hch with rfl | rfl | rfl | rfl | hch
      · exact b64Char_ne_xml (a / 4) (by omega)
      · exact b64Char_ne_xml (a % 4 * 16 + b / 16) (by omega)
      · exact b64Char_ne_xml (b % 16 * 4 + c / 64) (by omega)
      · exact b64Char_ne_xml (c % 64) (by omega)
      · refine ih rest ?_ (fun x hx => h2 x (by simp [hx])) ch hch
        simp at h1
        omega

theorem b64Encode_chars (bytes : List Nat) (h : ∀ x ∈ bytes, x < 256) :
    ∀ ch ∈ b64Encode bytes, ch ≠ '&' ∧ ch ≠ '<' ∧ ch ≠ '>' :=
  b64Encode_chars_aux bytes.length bytes le_rfl h

/-- ASCII bytes of Python `str(b_id)` (decimal, most significant digit
first). -/
def decBytes (i : Nat) : List Nat :=
  if i = 0 then [48]
  else ((Nat.digits 10 i).map (fun d => 48 + d)).reverse

/-- Python `str.zfill(w)`: left-pad with ASCII `'0'` (48) to width `w`. -/
def zfillBytes (w : Nat) (l : List Nat) : List Nat :=
  List.replicate (w - l.length) 48 ++ l

/-- `AzureBlobsStorage._PART_ID_BYTE_SIZE`. -/
def PART_ID_BYTE_SIZE : Nat := 16

/-- `AzureBlobsStorage._encode_block_id`: base64 of the decimal index
left-zero-padded to 16 ASCII bytes. -/
def encodeBlockId (bId : Nat) : List Char :=
  b64Encode (zfillBytes PART_ID_BYTE_SIZE (decBytes bId))

/-- Read a decimal ASCII byte string back into a number (ignoring leading
zeros). -/
def decFromBytes (l : List Nat) : Nat :=
  l.foldl (fun acc b => 10 * acc + (b - 48)) 0

/-- Decode a block id: base64-decode, then read the decimal bytes. -/
def decodeBlockId (s : List Char) : Nat := decFromBytes (b64Decode s)

theorem decBytes_lt (i : Nat) : ∀ x ∈ decBytes i, x < 256 := by
  intro x hx
  unfold decBytes at hx
  by_cases h : i = 0 <;> simp [h] at hx
  · omega
  · obtain ⟨d, hd, rfl⟩ := hx
    have : d < 10 := Nat.digits_lt_base (by norm_num) hd
    omega

theorem zfill_decBytes_lt (i : Nat) :
    ∀ x ∈ zfillBytes PART_ID_BYTE_SIZE (decBytes i), x < 256 := by
  intro x hx
  unfold zfillBytes at hx
  rcases List.mem_append.mp hx with hx | hx
  · have := List.eq_of_mem_replicate hx
    omega
  · exact decBytes_lt i x hx

theorem decFromBytes_zeros (k : Nat) (l : List Nat) :
    decFromBytes (List.replicate k 48 ++ l) = decFromBytes l := by
  induction k with
  | zero => rfl
  | succ k ih =>
    rw [List.replicate_succ, List.cons_append]
    unfold decFromBytes at ih ⊢
    rw [List.foldl_cons]
    simpa using ih

theorem decFromBytes_digits (ds : List Nat) :
    decFromBytes ((ds.map (fun d => 48 + d)).reverse)
      = Nat.ofDigits 10 ds := by
  induction ds with
  | nil => rfl
  | cons d ds ih =>
    rw [List.map_cons, List.reverse_cons]
    unfold decFromBytes at ih ⊢
    rw [List.foldl_append, List.foldl_cons, List.foldl_nil]
    rw [ih, Nat.ofDigits_cons]
    omega

theorem decFromBytes_decBytes (i : Nat) :
    decFromBytes (decBytes i) = i := by
  unfold decBytes
  by_cases h : i = 0
  · simp [h, decFromBytes]
  · rw [if_neg h, decFromBytes_digits, Nat.ofDigits_digits]

theorem decodeBlockId_encodeBlockId (i : Nat) :
    decodeBlockId (encodeBlockId i) = i := by
  unfold decodeBlockId encodeBlockId
  rw [b64Decode_b64Encode _ (zfill_decBytes_lt i)]
  unfold zfillBytes
  rw [decFromBytes_zeros, decFromBytes_decBytes]

/-- `xml.sax.saxutils.escape`: replace `&`, `<`, `>` by entities. -/
def xmlEscape (s : List Char) : List Char :=
  (s.map (fun c =>
    if c = '&' then ("&amp;").data
    else if c = '<' then ("&lt;").data
    else if c = '>' then ("&gt;").data
    else [c])).flatten

theorem xmlEscape_eq_self (s : List Char)
    (h : ∀ c ∈ s, c ≠ '&' ∧ c ≠ '<' ∧ c ≠ '>') :
    xmlEscape s = s := by
  induction s with
  | nil => rfl
  | cons c cs ih =>
    obtain ⟨h1, h2, h3⟩ := h c (by simp)
    have ih' := ih (fun x hx => h x (List.mem_cons_of_mem _ hx))
    simp only [xmlEscape, List.map_cons, List.flatten]
    rw [if_neg h1, if_neg h2, if_neg h3]
    show c :: xmlEscape cs = c :: cs
    rw [ih']

theorem xmlEscape_encodeBlockId (i : Nat) :
    xmlEscape (encodeBlockId i) = encodeBlockId i := by
  apply xmlEscape_eq_self
  intro c hc
  exact b64Encode_chars _ (zfill_decBytes_lt i) c hc

/-- `AzureBlobsStorage._create_commit_body`: the XML `Put Block List` body,
one `<Uncommitted>` element per block holding its escaped encoded id. -/
def createCommitBody (blocks : List Block) : List Char :=
  ("<?xml version=\"1.0\" encoding=\"utf-8\"?><BlockList>").data
  ++ (blocks.map (fun b =>
      ("<Uncommitted>").data ++ xmlEscape (encodeBlockId b.id)
        ++ ("</Uncommitted>").data)).flatten
  ++ ("</BlockList>").data

/-- The commit body `get_multipart_actions` computes for a blob of a given
size and part size. -/
def commitBody (size partSize : Nat) : List Char :=
  createCommitBody (calculateBlocks size partSize)

/-- C8: the Azure multipart commit body is a `BlockList` with exactly one
`Uncommitted` element per block of `_calculate_blocks(size, part_size)`,
in increasing block-id order, each element's text being base64 of the
block's decimal index left-zero-padded to 16 ASCII bytes (escaping is the
identity on base64 output); decoding the ids gives back exactly the ids of
`_calculate_blocks`, whose sizes sum to `size`. -/
theorem C8_commit_body (size partSize : Nat) (_hp : 0 < partSize) :
    commitBody size partSize
      = ("<?xml version=\"1.0\" encoding=\"utf-8\"?><BlockList>").data
        ++ ((calculateBlocks size partSize).map (fun b =>
            ("<Uncommitted>").data ++ encodeBlockId b.id
              ++ ("</Uncommitted>").data)).flatten
        ++ ("</BlockList>").data
    ∧ (calculateBlocks size partSize).map Block.id
        = List.range (calculateBlocks size partSize).length
    ∧ (calculateBlocks size partSize).map
          (fun b => decodeBlockId (encodeBlockId b.id))
        = (calculateBlocks size partSize).map Block.id
    ∧ ((calculateBlocks size partSize).map Block.size).sum = size := by
  refine ⟨?_, calculateBlocks_map_id _ _, ?_, calculateBlocks_sum _ _⟩
  · simp [commitBody, createCommitBody, xmlEscape_encodeBlockId]
  · simp [decodeBlockId_encodeBlockId]

/-- C8 witness: at `size = 28`, `part_size = 10`, decoding the encoded
block ids restores the block ids. -/
theorem C8_witness :
    (calculateBlocks 28 10).map
        (fun b => decodeBlockId (encodeBlockId b.id))
      = (calculateBlocks 28 10).map Block.id :=
  (C8_commit_body 28 10 (by decide)).2.2.1

end Giftless
